import Mathlib

/-!
# ESP32 weight module: HX711 and HC-SR04 drivers

A shallow embedding of `hx711.c` and `hc_sr04.c`.

* The Arduino primitives (`pinMode`, `digitalWrite`, `digitalRead`, `micros`,
  `millis`, `delayMicroseconds`, `delay`) are external.  Every call is recorded
  as an `Op` in a history (oldest first), and the answers of the three reading
  primitives are given by a `Host`: a function of the history issued before the
  call.  This covers every deterministic pin and clock behaviour.
* `uint32_t` values are `Nat` reduced modulo `2^32`; `int32_t` values are `Int`
  wrapped by `wrapI32`; C division is `Int.tdiv` (truncation toward zero).
* The busy-wait loops need not terminate (a stuck clock with a stuck pin), so
  they take a fuel argument bounding the number of iterations and return
  `none` when it runs out.
-/

namespace Sensors

/-! ## Host platform -/

/-- Logic level of a pin: `LOW` is 0 and `HIGH` is 1, as in `Arduino.h`. -/
inductive Level where
  | LOW
  | HIGH
  deriving DecidableEq, Repr

/-- The integer value of a level, as returned by `digitalRead`. -/
def Level.toNat : Level → Nat
  | Level.LOW => 0
  | Level.HIGH => 1

/-- Pin direction passed to `pinMode`. -/
inductive PinDir where
  | INPUT
  | OUTPUT
  deriving DecidableEq, Repr

/-- One call of a host primitive, as issued by a driver. -/
inductive Op where
  | pinMode (pin : Nat) (dir : PinDir)
  | digitalWrite (pin : Nat) (lvl : Level)
  | digitalRead (pin : Nat)
  | micros
  | millis
  | delayMicroseconds (us : Nat)
  | delay (ms : Nat)
  deriving DecidableEq, Repr

/-- Answers of the host platform.  Each function receives the history of the
calls issued before the one being answered. -/
structure Host where
  digitalRead : List Op → Nat → Level
  micros : List Op → Nat
  millis : List Op → Nat

/-- Which of the two host clocks a deadline loop reads. -/
inductive Clock where
  | micros
  | millis
  deriving DecidableEq, Repr

/-- The operation recorded for a clock read. -/
def Clock.op : Clock → Op
  | Clock.micros => Op.micros
  | Clock.millis => Op.millis

/-- Value of `micros()` after history `h`, a `uint32_t`. -/
def nowMicros (host : Host) (h : List Op) : Nat := host.micros h % 4294967296

/-- Value of `millis()` after history `h`, a `uint32_t`. -/
def nowMillis (host : Host) (h : List Op) : Nat := host.millis h % 4294967296

/-- Value of the chosen clock after history `h`. -/
def now (host : Host) : Clock → List Op → Nat
  | Clock.micros, h => nowMicros host h
  | Clock.millis, h => nowMillis host h

/-! ## Machine integers -/

/-- Wrap an integer into the `int32_t` range (two's complement). -/
def wrapI32 (x : Int) : Int := (x + 2147483648) % 4294967296 - 2147483648

/-- Reinterpret a `uint32_t` bit pattern as an `int32_t`. -/
def u32ToI32 (n : Nat) : Int :=
  if n < 2147483648 then (n : Int) else (n : Int) - 4294967296

/-! ## Busy-wait loops -/

/-- The loop `while (digitalRead(pin) == lvl && clock() < timeout) { body }`,
where `body` only issues the listed host calls.  The `&&` short-circuits: the
clock is read only when the pin shows `lvl`.  Returns the history at loop exit,
or `none` when `fuel` iterations were not enough. -/
def pollWhile (host : Host) (clk : Clock) (pin : Nat) (lvl : Level) (timeout : Nat)
    (body : List Op) : Nat → List Op → Option (List Op)
  | 0, _ => none
  | fuel + 1, h =>
    if host.digitalRead h pin = lvl then
      if now host clk (h ++ [Op.digitalRead pin]) < timeout then
        pollWhile host clk pin lvl timeout body fuel
          (h ++ [Op.digitalRead pin] ++ [clk.op] ++ body)
      else some (h ++ [Op.digitalRead pin] ++ [clk.op])
    else some (h ++ [Op.digitalRead pin])

/-- History after `i` full iterations of a `pollWhile` loop entered at `h`. -/
def pollHist (clk : Clock) (pin : Nat) (body : List Op) : Nat → List Op → List Op
  | 0, h => h
  | i + 1, h => pollHist clk pin body i (h ++ [Op.digitalRead pin] ++ [clk.op] ++ body)

/-- The loop entered at `h` runs `k` full iterations and then leaves because
the pin no longer shows `lvl`. -/
def PinExitAt (host : Host) (clk : Clock) (pin : Nat) (lvl : Level) (timeout : Nat)
    (body : List Op) (h : List Op) (k : Nat) : Prop :=
  (∀ i, i < k →
    host.digitalRead (pollHist clk pin body i h) pin = lvl ∧
    now host clk (pollHist clk pin body i h ++ [Op.digitalRead pin]) < timeout) ∧
  host.digitalRead (pollHist clk pin body k h) pin ≠ lvl

/-- The loop entered at `h` runs `k` full iterations and then leaves because
the clock has reached `timeout` while the pin still shows `lvl`. -/
def ClockExitAt (host : Host) (clk : Clock) (pin : Nat) (lvl : Level) (timeout : Nat)
    (body : List Op) (h : List Op) (k : Nat) : Prop :=
  (∀ i, i < k →
    host.digitalRead (pollHist clk pin body i h) pin = lvl ∧
    now host clk (pollHist clk pin body i h ++ [Op.digitalRead pin]) < timeout) ∧
  host.digitalRead (pollHist clk pin body k h) pin = lvl ∧
  timeout ≤ now host clk (pollHist clk pin body k h ++ [Op.digitalRead pin])

/-! ## HX711 weight driver (`hx711.c`) -/

/-- File-scope state of `hx711.c`. -/
structure Hx711 where
  s_dout_pin : Nat
  s_sck_pin : Nat
  s_initialized : Bool
  s_tare_offset : Int
  deriving DecidableEq, Repr

/-- State at program start: the static initialisers of `hx711.c`. -/
def Hx711.boot : Hx711 :=
  { s_dout_pin := 0, s_sck_pin := 0, s_initialized := false, s_tare_offset := 0 }

/-- Host calls of one data clock pulse of `hx711_read_raw`: rise, settle,
sample, fall, settle. -/
def dataPulse (st : Hx711) : List Op :=
  [Op.digitalWrite st.s_sck_pin Level.HIGH, Op.delayMicroseconds 1,
   Op.digitalRead st.s_dout_pin,
   Op.digitalWrite st.s_sck_pin Level.LOW, Op.delayMicroseconds 1]

/-- Host calls of the 25th (channel select) pulse of `hx711_read_raw`. -/
def selectPulse (st : Hx711) : List Op :=
  [Op.digitalWrite st.s_sck_pin Level.HIGH, Op.delayMicroseconds 1,
   Op.digitalWrite st.s_sck_pin Level.LOW, Op.delayMicroseconds 1]

/-- The loop `for (int i = 23; i >= 0; i--)` of `hx711_read_raw`, with `n = i + 1`
bit positions still to read: `data |= ((int32_t) bit) << i`. -/
def shiftIn (host : Host) (st : Hx711) : Nat → Nat → List Op → Nat × List Op
  | 0, data, h => (data, h)
  | i + 1, data, h =>
    let bit := (host.digitalRead
      (h ++ [Op.digitalWrite st.s_sck_pin Level.HIGH, Op.delayMicroseconds 1])
      st.s_dout_pin).toNat
    shiftIn host st i (data ||| (bit <<< i)) (h ++ dataPulse st)

/-- History after `j` data pulses of a shift loop entered at `h`. -/
def shiftHist (st : Hx711) : Nat → List Op → List Op
  | 0, h => h
  | j + 1, h => shiftHist st j (h ++ dataPulse st)

/-- History at which the data line is sampled during data pulse number `j`
(`j = 0` is the first pulse, bit 23). -/
def sampleHist (st : Hx711) (h : List Op) (j : Nat) : List Op :=
  shiftHist st j h ++ [Op.digitalWrite st.s_sck_pin Level.HIGH, Op.delayMicroseconds 1]

/-- The conversion at the end of `hx711_read_raw`:
`if (data & 0x800000) data |= 0xFF000000; return data;`. -/
def signExtend24 (data : Nat) : Int :=
  u32ToI32 (if data &&& 0x800000 ≠ 0 then data ||| 0xFF000000 else data)

/-- Embedding of `hx711_read_raw`. -/
def hx711_read_raw (host : Host) (fuel : Nat) (st : Hx711) (h : List Op) :
    Option (Int × Hx711 × List Op) :=
  if st.s_initialized = false then some (0, st, h)
  else
    let timeout := (nowMillis host h + 100) % 4294967296
    match pollWhile host Clock.millis st.s_dout_pin Level.HIGH timeout
        [Op.delayMicroseconds 1] fuel (h ++ [Op.millis]) with
    | none => none
    | some h1 =>
      if timeout ≤ nowMillis host h1 then some (0, st, h1 ++ [Op.millis])
      else
        let r := shiftIn host st 24 0 (h1 ++ [Op.millis])
        some (signExtend24 r.1, st, r.2 ++ selectPulse st)

/-- Embedding of `hx711_init`.  The discard read runs before `s_initialized` is
assigned, exactly as in the source. -/
def hx711_init (host : Host) (fuel : Nat) (dout_pin sck_pin : Nat) (st : Hx711)
    (h : List Op) : Option (Hx711 × List Op) :=
  let st1 := { st with s_dout_pin := dout_pin, s_sck_pin := sck_pin }
  let h1 := h ++ [Op.pinMode dout_pin PinDir.INPUT, Op.pinMode sck_pin PinDir.OUTPUT,
    Op.digitalWrite sck_pin Level.LOW, Op.delayMicroseconds 1]
  match hx711_read_raw host fuel st1 h1 with
  | none => none
  | some (_, st2, h2) =>
    some ({ st2 with s_tare_offset := 0, s_initialized := true }, h2 ++ [Op.delay 10])

/-- The arithmetic of `hx711_read_weight` after the raw reading was taken
(tare and offset, multiplier, division by 1000, clamp), on `int32_t` values. -/
def weightFromRaw (tare_offset offset multiplier raw : Int) : Int :=
  let calibrated := wrapI32 (wrapI32 (raw - tare_offset) - offset)
  let weight := Int.tdiv (wrapI32 (calibrated * multiplier)) 1000
  let weight := if weight < 0 then 0 else weight
  let weight := if weight > 1000 then 1000 else weight
  weight

/-- Embedding of `hx711_read_weight`. -/
def hx711_read_weight (host : Host) (fuel : Nat) (offset multiplier : Int) (st : Hx711)
    (h : List Op) : Option (Int × Hx711 × List Op) :=
  if st.s_initialized = false then some (0, st, h)
  else if multiplier = 0 then some (0, st, h)
  else
    match hx711_read_raw host fuel st h with
    | none => none
    | some (raw, st1, h1) =>
      some (weightFromRaw st1.s_tare_offset offset multiplier raw, st1, h1)

/-- The loop of `hx711_tare`: `sum += hx711_read_raw(); delay(10);`, `n` times. -/
def tareLoop (host : Host) (fuel : Nat) : Nat → Int → Hx711 → List Op →
    Option (Int × Hx711 × List Op)
  | 0, sum, st, h => some (sum, st, h)
  | n + 1, sum, st, h =>
    match hx711_read_raw host fuel st h with
    | none => none
    | some (raw, st1, h1) =>
      tareLoop host fuel n (wrapI32 (sum + raw)) st1 (h1 ++ [Op.delay 10])

/-- Embedding of `hx711_tare`. -/
def hx711_tare (host : Host) (fuel : Nat) (st : Hx711) (h : List Op) :
    Option (Hx711 × List Op) :=
  if st.s_initialized = true then
    match tareLoop host fuel 5 0 st h with
    | none => none
    | some (sum, st1, h1) => some ({ st1 with s_tare_offset := Int.tdiv sum 5 }, h1)
  else some (st, h)

/-- Embedding of `hx711_get_tare_offset`. -/
def hx711_get_tare_offset (st : Hx711) (h : List Op) : Int × Hx711 × List Op :=
  (st.s_tare_offset, st, h)

/-- Embedding of `hx711_get_raw_debug`. -/
def hx711_get_raw_debug (host : Host) (fuel : Nat) (st : Hx711) (h : List Op) :
    Option (Int × Hx711 × List Op) :=
  if st.s_initialized = true then hx711_read_raw host fuel st h
  else some (0, st, h)

/-- Embedding of `hx711_is_initialized`. -/
def hx711_is_initialized (st : Hx711) (h : List Op) : Bool × Hx711 × List Op :=
  (st.s_initialized, st, h)

/-! ## HC-SR04 distance driver (`hc_sr04.c`) -/

/-- File-scope state of `hc_sr04.c`. -/
structure HcSr04 where
  s_trig_pin : Nat
  s_echo_pin : Nat
  s_initialized : Bool
  s_last_distance : Int
  deriving DecidableEq, Repr

/-- State at program start: the static initialisers of `hc_sr04.c`. -/
def HcSr04.boot : HcSr04 :=
  { s_trig_pin := 0, s_echo_pin := 0, s_initialized := false, s_last_distance := 0 }

/-- Embedding of `hc_sr04_init`. -/
def hc_sr04_init (trig_pin echo_pin : Nat) (st : HcSr04) (h : List Op) :
    HcSr04 × List Op :=
  ({ st with s_trig_pin := trig_pin, s_echo_pin := echo_pin, s_initialized := true },
   h ++ [Op.pinMode trig_pin PinDir.OUTPUT, Op.pinMode echo_pin PinDir.INPUT,
     Op.digitalWrite trig_pin Level.LOW, Op.delayMicroseconds 2])

/-- Host calls of the trigger pulse of `hc_sr04_read_distance`. -/
def triggerPulse (st : HcSr04) : List Op :=
  [Op.digitalWrite st.s_trig_pin Level.HIGH, Op.delayMicroseconds 10,
   Op.digitalWrite st.s_trig_pin Level.LOW]

/-- Embedding of `hc_sr04_read_distance` (the two statements after the first
`return distance;` are unreachable and have no counterpart). -/
def hc_sr04_read_distance (host : Host) (fuel : Nat) (st : HcSr04) (h : List Op) :
    Option (Int × HcSr04 × List Op) :=
  if st.s_initialized = false then some (-1, st, h)
  else
    let h1 := h ++ triggerPulse st
    let timeout := (nowMicros host h1 + 10000) % 4294967296
    match pollWhile host Clock.micros st.s_echo_pin Level.LOW timeout [] fuel
        (h1 ++ [Op.micros]) with
    | none => none
    | some h2 =>
      if timeout ≤ nowMicros host h2 then
        let max_distance : Int := Int.tdiv (10000 * 343) 2000
        some (max_distance, { st with s_last_distance := max_distance }, h2 ++ [Op.micros])
      else
        let h3 := h2 ++ [Op.micros]
        let echo_start := nowMicros host h3
        let timeout2 := (echo_start + 10000) % 4294967296
        match pollWhile host Clock.micros st.s_echo_pin Level.HIGH timeout2 [] fuel
            (h3 ++ [Op.micros]) with
        | none => none
        | some h4 =>
          let echo_end := nowMicros host h4
          let echo_duration := (echo_end + 4294967296 - echo_start) % 4294967296
          let distance := u32ToI32 (echo_duration * 343 % 4294967296 / 2000)
          some (distance, { st with s_last_distance := distance }, h4 ++ [Op.micros])

/-- Embedding of `hc_sr04_is_initialized`. -/
def hc_sr04_is_initialized (st : HcSr04) (h : List Op) : Bool × HcSr04 × List Op :=
  (st.s_initialized, st, h)

/-! ## Vocabulary of the statements -/

/-- The value is representable as an `int32_t`. -/
abbrev fitsI32 (x : Int) : Prop := -2147483648 ≤ x ∧ x ≤ 2147483647

/-- Recognises a `digitalWrite` to any pin. -/
def isWrite : Op → Bool
  | Op.digitalWrite _ _ => true
  | _ => false

/-- The deadline computed by `hx711_read_raw` entered at history `h`:
`millis() + 100` as a `uint32_t`. -/
def hxTimeout (host : Host) (h : List Op) : Nat := (nowMillis host h + 100) % 4294967296

/-- History of `hx711_read_raw` right after the poll that found the data line low,
the wait loop having run `k` full iterations before. -/
def hxReadyHist (st : Hx711) (h : List Op) (k : Nat) : List Op :=
  pollHist Clock.millis st.s_dout_pin [Op.delayMicroseconds 1] k (h ++ [Op.millis])
    ++ [Op.digitalRead st.s_dout_pin]

/-- The data line signals ready: the wait loop of `hx711_read_raw` entered at `h`
sees the data line low at poll number `k` (after `k` polls that saw it high
before the deadline), and the deadline check that follows reads a clock value
below the deadline. -/
def DataReadyAt (host : Host) (st : Hx711) (h : List Op) (k : Nat) : Prop :=
  PinExitAt host Clock.millis st.s_dout_pin Level.HIGH (hxTimeout host h)
    [Op.delayMicroseconds 1] (h ++ [Op.millis]) k ∧
  nowMillis host (hxReadyHist st h k) < hxTimeout host h

/-- The unsigned 24-bit protocol value of the bits `b 23 .. b 0`, where `b i` is
the level sampled for bit position `i`. -/
def protocolValue (b : Nat → Level) : Nat :=
  ∑ i in Finset.range 24, (b i).toNat * 2 ^ i

/-- Host calls of `hx711_read_raw` before the first clock pulse when data became
ready at poll number `k`: the deadline computation, `k` full loop iterations,
the poll that saw the line low, and the deadline check. -/
def hxWaitOps (st : Hx711) (k : Nat) : List Op :=
  [Op.millis] ++
  (List.replicate k
    [Op.digitalRead st.s_dout_pin, Op.millis, Op.delayMicroseconds 1]).flatten ++
  [Op.digitalRead st.s_dout_pin, Op.millis]

/-- Host calls of a `hx711_read_raw` that times out at poll number `k`: the
deadline computation, `k` full loop iterations, the last loop test, and the
deadline check. -/
def hxTimeoutOps (st : Hx711) (k : Nat) : List Op :=
  [Op.millis] ++
  (List.replicate k
    [Op.digitalRead st.s_dout_pin, Op.millis, Op.delayMicroseconds 1]).flatten ++
  [Op.digitalRead st.s_dout_pin, Op.millis, Op.millis]

/-- The first deadline computed by `hc_sr04_read_distance` entered at history `h`:
`micros() + 10000` as a `uint32_t`, read right after the trigger pulse. -/
def hcTimeout (host : Host) (st : HcSr04) (h : List Op) : Nat :=
  (nowMicros host (h ++ triggerPulse st) + 10000) % 4294967296

/-- History after `k` full iterations of the first wait loop (echo still low). -/
def hcWaitHist (st : HcSr04) (h : List Op) (k : Nat) : List Op :=
  pollHist Clock.micros st.s_echo_pin [] k (h ++ triggerPulse st ++ [Op.micros])

/-- History right after the poll of the first loop that saw the echo line high,
the loop having run `k1` full iterations before. -/
def hcRiseHist (st : HcSr04) (h : List Op) (k1 : Nat) : List Op :=
  hcWaitHist st h k1 ++ [Op.digitalRead st.s_echo_pin]

/-- The value stored in `echo_start`. -/
def hcEchoStart (host : Host) (st : HcSr04) (h : List Op) (k1 : Nat) : Nat :=
  nowMicros host (hcRiseHist st h k1 ++ [Op.micros])

/-- History right after the poll of the second loop that saw the echo line low,
the loop having run `k2` full iterations before. -/
def hcFallHist (st : HcSr04) (h : List Op) (k1 k2 : Nat) : List Op :=
  pollHist Clock.micros st.s_echo_pin [] k2 (hcRiseHist st h k1 ++ [Op.micros] ++ [Op.micros])
    ++ [Op.digitalRead st.s_echo_pin]

/-- The value stored in `echo_end`. -/
def hcEchoEnd (host : Host) (st : HcSr04) (h : List Op) (k1 k2 : Nat) : Nat :=
  nowMicros host (hcFallHist st h k1 k2)

/-- The value stored in `echo_duration`: `echo_end - echo_start` as a `uint32_t`. -/
def hcPulseWidth (host : Host) (st : HcSr04) (h : List Op) (k1 k2 : Nat) : Nat :=
  (hcEchoEnd host st h k1 k2 + 4294967296 - hcEchoStart host st h k1) % 4294967296

/-- The same host with both clocks started `t0` ticks later: the pins behave the
same, every clock read is shifted by `t0` (and then wraps modulo `2^32`). -/
def Host.startAt (host : Host) (t0 : Nat) : Host where
  digitalRead := host.digitalRead
  micros h := host.micros h + t0
  millis h := host.millis h + t0

/-! ## Simulated hosts used for concrete runs -/

/-- Recognises a write of `HIGH` to any pin. -/
def isWriteHigh : Op → Bool
  | Op.digitalWrite _ Level.HIGH => true
  | _ => false

/-- A simulated amplifier that is always ready: before the first rising clock
edge the data line is low, and during data pulse `j` (counted from 1) it shows
bit `24 - j` of `value`.  Both clocks stand still at `t0`. -/
def adcHost (value t0 : Nat) : Host where
  digitalRead h _ :=
    if (h.filter isWriteHigh).length = 0 then Level.LOW
    else if value.testBit (24 - (h.filter isWriteHigh).length) then Level.HIGH
    else Level.LOW
  micros _ := t0
  millis _ := t0

/-- The level that presents bit `i` of `value`. -/
def levelOfBit (value i : Nat) : Level :=
  if value.testBit i then Level.HIGH else Level.LOW

/-- A simulated host on which every host call takes `step` clock ticks: both
clocks read `t0` plus the elapsed ticks, and every pin shows `pin e` after `e`
elapsed ticks. -/
def tickHost (pin : Nat → Level) (t0 step : Nat) : Host where
  digitalRead h _ := pin (step * h.length)
  micros h := t0 + step * h.length
  millis h := t0 + step * h.length

/-- An echo line that is high from `rise` (inclusive) to `fall` (exclusive). -/
def echoLevel (rise fall : Nat) (e : Nat) : Level :=
  if rise ≤ e ∧ e < fall then Level.HIGH else Level.LOW

/-- An initialised weight driver on pins 4 (data) and 5 (clock). -/
def readyHx : Hx711 :=
  { s_dout_pin := 4, s_sck_pin := 5, s_initialized := true, s_tare_offset := 0 }

/-- An initialised distance driver on pins 12 (trigger) and 13 (echo). -/
def readyHc : HcSr04 :=
  { s_trig_pin := 12, s_echo_pin := 13, s_initialized := true, s_last_distance := 0 }

/-- A simulated amplifier for repeated reads: conversion number `n` (counted from
0, 25 clock pulses each) presents `values n` in the same way as `adcHost`, and
the data line is low between conversions.  Both clocks stand still at `t0`. -/
def streamAdcHost (values : Nat → Nat) (t0 : Nat) : Host where
  digitalRead h _ :=
    if (h.filter isWriteHigh).length % 25 = 0 then Level.LOW
    else if (values ((h.filter isWriteHigh).length / 25)).testBit
        (24 - (h.filter isWriteHigh).length % 25) then Level.HIGH
    else Level.LOW
  micros _ := t0
  millis _ := t0

/-- Five conversions for a tare: three times -3 (as 24-bit two's complement),
then zero. -/
def tareSamples (n : Nat) : Nat := if n < 3 then 0xFFFFFD else 0

/-- History at the end of raw read number `n` of a run of raw reads that starts at
the empty history and waits `delay(10)` after each read, as `hx711_tare` does. -/
def readEnd (host : Host) (fuel : Nat) (st : Hx711) : Nat → List Op
  | 0 => ((hx711_read_raw host fuel st []).map (fun x => x.2.2)).getD []
  | n + 1 =>
    ((hx711_read_raw host fuel st (readEnd host fuel st n ++ [Op.delay 10])).map
      (fun x => x.2.2)).getD []

/-- A call of the public interface of `hx711.h`. -/
inductive HxCall where
  | init (dout_pin sck_pin : Nat)
  | read_raw
  | read_weight (offset multiplier : Int)
  | tare
  | get_tare_offset
  | get_raw_debug
  | is_initialized
  deriving DecidableEq, Repr

/-- The calls other than `hx711_init` and `hx711_tare`. -/
def HxCall.keepsTare : HxCall → Bool
  | HxCall.init _ _ => false
  | HxCall.tare => false
  | _ => true

/-- Effect of one call of the weight driver on its state and on the history
(the returned value is dropped). -/
def hxStep (host : Host) (fuel : Nat) : HxCall → Hx711 → List Op → Option (Hx711 × List Op)
  | HxCall.init d s, st, h => hx711_init host fuel d s st h
  | HxCall.read_raw, st, h => (hx711_read_raw host fuel st h).map (fun x => x.2)
  | HxCall.read_weight o m, st, h => (hx711_read_weight host fuel o m st h).map (fun x => x.2)
  | HxCall.tare, st, h => hx711_tare host fuel st h
  | HxCall.get_tare_offset, st, h => some (hx711_get_tare_offset st h).2
  | HxCall.get_raw_debug, st, h => (hx711_get_raw_debug host fuel st h).map (fun x => x.2)
  | HxCall.is_initialized, st, h => some (hx711_is_initialized st h).2

/-- Effect of a sequence of calls of the weight driver. -/
def hxRun (host : Host) (fuel : Nat) : List HxCall → Hx711 → List Op →
    Option (Hx711 × List Op)
  | [], st, h => some (st, h)
  | c :: cs, st, h =>
    match hxStep host fuel c st h with
    | none => none
    | some (st1, h1) => hxRun host fuel cs st1 h1

/-- A call of the public interface of `hc_sr04.h`. -/
inductive HcCall where
  | init (trig_pin echo_pin : Nat)
  | read_distance
  | is_initialized
  deriving DecidableEq, Repr

/-- Effect of one call of the distance driver on its state and on the history
(the returned value is dropped). -/
def hcStep (host : Host) (fuel : Nat) : HcCall → HcSr04 → List Op →
    Option (HcSr04 × List Op)
  | HcCall.init t e, st, h => some (hc_sr04_init t e st h)
  | HcCall.read_distance, st, h => (hc_sr04_read_distance host fuel st h).map (fun x => x.2)
  | HcCall.is_initialized, st, h => some (hc_sr04_is_initialized st h).2

/-- Effect of a sequence of calls of the distance driver. -/
def hcRun (host : Host) (fuel : Nat) : List HcCall → HcSr04 → List Op →
    Option (HcSr04 × List Op)
  | [], st, h => some (st, h)
  | c :: cs, st, h =>
    match hcStep host fuel c st h with
    | none => none
    | some (st1, h1) => hcRun host fuel cs st1 h1

/-- One step of `lastWrite`: a write to `pin` replaces the remembered level. -/
def lastWriteStep (pin : Nat) (acc : Option Level) : Op → Option Level
  | Op.digitalWrite p l => if p = pin then some l else acc
  | _ => acc

/-- The level of the most recent `digitalWrite` to `pin` in the history, if any. -/
def lastWrite (pin : Nat) (h : List Op) : Option Level :=
  h.foldl (lastWriteStep pin) none

/-- Rest invariant of the distance driver: when it is initialised, its trigger
pin was configured as output, its echo pin as input, and the most recent write
to its trigger pin is `LOW`. -/
def RestInvariant (st : HcSr04) (h : List Op) : Prop :=
  st.s_initialized = true →
    Op.pinMode st.s_trig_pin PinDir.OUTPUT ∈ h ∧
    Op.pinMode st.s_echo_pin PinDir.INPUT ∈ h ∧
    lastWrite st.s_trig_pin h = some Level.LOW

/-- History at which the wait loop of `hx711_read_raw` entered at `h` ends, if it
ends within `fuel` iterations. -/
def hxWaitEnd (host : Host) (fuel : Nat) (st : Hx711) (h : List Op) : Option (List Op) :=
  pollWhile host Clock.millis st.s_dout_pin Level.HIGH (hxTimeout host h)
    [Op.delayMicroseconds 1] fuel (h ++ [Op.millis])

/-! ## Auxiliary lemmas: busy-wait loops -/

/-- A loop whose pin changes at poll `k` returns, given more than `k` fuel. -/
theorem pollWhile_pin_exit (host : Host) (clk : Clock) (pin : Nat) (lvl : Level)
    (timeout : Nat) (body : List Op) :
    ∀ (k fuel : Nat) (h : List Op), PinExitAt host clk pin lvl timeout body h k → k < fuel →
      pollWhile host clk pin lvl timeout body fuel h
        = some (pollHist clk pin body k h ++ [Op.digitalRead pin]) := by
  intro k
  induction k with
  | zero =>
    intro fuel h hx hk
    obtain ⟨f, rfl⟩ : ∃ f, fuel = f + 1 := ⟨fuel - 1, by omega⟩
    have hne := hx.2
    simp only [pollHist] at hne
    simp [pollWhile, pollHist, hne]
  | succ k ih =>
    intro fuel h hx hk
    obtain ⟨f, rfl⟩ : ∃ f, fuel = f + 1 := ⟨fuel - 1, by omega⟩
    have h0 := hx.1 0 (by omega)
    simp only [pollHist] at h0
    have hrec : PinExitAt host clk pin lvl timeout body
        (h ++ [Op.digitalRead pin] ++ [clk.op] ++ body) k :=
      ⟨fun i hi => hx.1 (i + 1) (by omega), hx.2⟩
    have := ih f _ hrec (by omega)
    simp only [pollWhile, h0.1, h0.2, if_true, pollHist]
    exact this

/-- A loop whose deadline is reached at poll `k` returns, given more than `k` fuel. -/
theorem pollWhile_clock_exit (host : Host) (clk : Clock) (pin : Nat) (lvl : Level)
    (timeout : Nat) (body : List Op) :
    ∀ (k fuel : Nat) (h : List Op), ClockExitAt host clk pin lvl timeout body h k → k < fuel →
      pollWhile host clk pin lvl timeout body fuel h
        = some (pollHist clk pin body k h ++ [Op.digitalRead pin] ++ [clk.op]) := by
  intro k
  induction k with
  | zero =>
    intro fuel h hx hk
    obtain ⟨f, rfl⟩ : ∃ f, fuel = f + 1 := ⟨fuel - 1, by omega⟩
    have h1 := hx.2.1
    have h2 := hx.2.2
    simp only [pollHist] at h1 h2
    simp [pollWhile, pollHist, h1, Nat.not_lt.mpr h2]
  | succ k ih =>
    intro fuel h hx hk
    obtain ⟨f, rfl⟩ : ∃ f, fuel = f + 1 := ⟨fuel - 1, by omega⟩
    have h0 := hx.1 0 (by omega)
    simp only [pollHist] at h0
    have hrec : ClockExitAt host clk pin lvl timeout body
        (h ++ [Op.digitalRead pin] ++ [clk.op] ++ body) k :=
      ⟨fun i hi => hx.1 (i + 1) (by omega), hx.2⟩
    have := ih f _ hrec (by omega)
    simp only [pollWhile, h0.1, h0.2, if_true, pollHist]
    exact this

/-- The history after `k` iterations is the entry history followed by `k` copies
of the calls of one iteration. -/
theorem pollHist_eq_append (clk : Clock) (pin : Nat) (body : List Op) :
    ∀ (k : Nat) (h : List Op),
      pollHist clk pin body k h =
        h ++ (List.replicate k ([Op.digitalRead pin, clk.op] ++ body)).flatten := by
  intro k
  induction k with
  | zero => intro h; simp [pollHist]
  | succ k ih =>
    intro h
    simp only [pollHist, ih, List.replicate_succ, List.flatten_cons, List.append_assoc,
      List.singleton_append, List.cons_append, List.nil_append]

/-! ## Auxiliary lemmas: machine arithmetic -/

/-- Truncating division by 1000 in terms of flooring division. -/
theorem tdiv_1000_eq (a : Int) :
    Int.tdiv a 1000 = if 0 ≤ a then a / 1000 else -((-a) / 1000) := by
  split
  · rename_i h
    exact Int.tdiv_eq_ediv h (by decide)
  · rename_i h
    have h1 : a = -(-a) := by omega
    rw [h1, Int.neg_tdiv, Int.tdiv_eq_ediv (by omega) (by decide)]
    simp

theorem wrapI32_of_fits (x : Int) (h1 : -2147483648 ≤ x) (h2 : x < 2147483648) :
    wrapI32 x = x := by
  unfold wrapI32; omega

theorem wrapI32_sub_wrapI32 (x y : Int) : wrapI32 (wrapI32 x - y) = wrapI32 (x - y) := by
  unfold wrapI32; omega

/-- Dividing by 1000 and clamping into `[0, 1000]` is monotone. -/
theorem clamp_tdiv_mono (p1 p2 : Int) (hp : p1 ≤ p2) :
    min 1000 (max 0 (Int.tdiv p1 1000)) ≤ min 1000 (max 0 (Int.tdiv p2 1000)) := by
  rw [tdiv_1000_eq, tdiv_1000_eq]
  simp only [min_def, max_def]
  split_ifs <;> omega

theorem level_toNat_le (l : Level) : l.toNat ≤ 1 := by
  cases l <;> simp [Level.toNat]

theorem bits_sum_lt (b : Nat → Level) (n : Nat) :
    ∑ i in Finset.range n, (b i).toNat * 2 ^ i < 2 ^ n := by
  induction n with
  | zero => simp
  | succ n ih =>
    rw [Finset.sum_range_succ, Nat.pow_succ]
    have := level_toNat_le (b n)
    have h2 : (b n).toNat * 2 ^ n ≤ 1 * 2 ^ n := Nat.mul_le_mul_right _ this
    omega

/-- For a 24-bit value the test `data & 0x800000` is the comparison with `2^23`. -/
theorem and_bit23_eq_zero_iff (x : Nat) (hx : x < 16777216) :
    x &&& 0x800000 = 0 ↔ x < 8388608 := by
  have h23 : (0x800000 : Nat) = 2 ^ 23 := by norm_num
  rw [h23]
  constructor
  · intro h
    have ht : (x &&& 2 ^ 23).testBit 23 = false := by rw [h]; simp
    rw [Nat.testBit_and, Nat.testBit_two_pow_self, Bool.and_true,
      Nat.testBit_to_div_mod] at ht
    have := of_decide_eq_false ht
    omega
  · intro h
    apply Nat.eq_of_testBit_eq
    intro i
    rw [Nat.testBit_and, Nat.testBit_two_pow, Nat.zero_testBit]
    by_cases hi : 23 = i
    · subst hi
      rw [Nat.testBit_lt_two_pow (by norm_num; exact h)]
      rfl
    · simp [hi]

/-- Sign extension of a 24-bit value. -/
theorem signExtend24_eq (x : Nat) (hx : x < 16777216) :
    signExtend24 x = if x < 8388608 then (x : Int) else (x : Int) - 16777216 := by
  unfold signExtend24
  by_cases h : x < 8388608
  · have := (and_bit23_eq_zero_iff x hx).mpr h
    simp only [this, ne_eq, not_true_eq_false, if_false, h, if_true]
    unfold u32ToI32
    rw [if_pos (by omega)]
  · have hne : x &&& 0x800000 ≠ 0 := fun h0 => h ((and_bit23_eq_zero_iff x hx).mp h0)
    have hor : x ||| 0xFF000000 = 0xFF000000 + x := by
      have := Nat.mul_add_lt_is_or (i := 24) (b := x) (by norm_num; exact hx) 255
      rw [Nat.or_comm]
      norm_num at this ⊢
      exact this.symm
    simp only [hne, ne_eq, not_false_eq_true, if_true, h, if_false, hor]
    unfold u32ToI32
    rw [if_neg (by omega)]
    push_cast
    omega

/-! ## Auxiliary lemmas: weight driver -/

/-- The raw read returns the driver state it was given. -/
theorem hx711_read_raw_state (host : Host) (fuel : Nat) (st : Hx711) (h : List Op)
    (r : Int) (st1 : Hx711) (h1 : List Op)
    (hraw : hx711_read_raw host fuel st h = some (r, st1, h1)) : st1 = st := by
  unfold hx711_read_raw at hraw
  split at hraw
  · simp at hraw; exact hraw.2.1.symm
  · simp only at hraw
    split at hraw
    · simp at hraw
    · split at hraw
      · simp at hraw; exact hraw.2.1.symm
      · simp at hraw; exact hraw.2.1.symm

/-- The clamp written with `min` and `max`. -/
theorem weightFromRaw_eq (tare_offset offset m raw : Int) :
    weightFromRaw tare_offset offset m raw =
      min 1000 (max 0 (Int.tdiv (wrapI32 (wrapI32 (raw - tare_offset - offset) * m)) 1000)) := by
  simp only [weightFromRaw, wrapI32_sub_wrapI32]
  generalize Int.tdiv (wrapI32 (wrapI32 (raw - tare_offset - offset) * m)) 1000 = q
  simp only [min_def, max_def]
  split_ifs <;> omega

theorem weightFromRaw_bounds (tare_offset offset m raw : Int) :
    0 ≤ weightFromRaw tare_offset offset m raw ∧
    weightFromRaw tare_offset offset m raw ≤ 1000 := by
  rw [weightFromRaw_eq]
  simp only [min_def, max_def]
  split_ifs <;> omega

/-- On an initialised driver with a non-zero multiplier the weight is the
arithmetic applied to the raw reading. -/
theorem hx711_read_weight_of_raw (host : Host) (fuel : Nat) (offset m : Int) (st : Hx711)
    (h : List Op) (r : Int) (st1 : Hx711) (h1 : List Op)
    (hinit : st.s_initialized = true) (hm : m ≠ 0)
    (hraw : hx711_read_raw host fuel st h = some (r, st1, h1)) :
    hx711_read_weight host fuel offset m st h =
      some (weightFromRaw st.s_tare_offset offset m r, st, h1) := by
  have hst := hx711_read_raw_state host fuel st h r st1 h1 hraw
  subst hst
  unfold hx711_read_weight
  simp only [hinit, hm, hraw, if_false, Bool.true_eq_false]

/-- The weight when neither the subtraction nor the multiplication overflows. -/
theorem hx711_read_weight_fits (host : Host) (fuel : Nat) (offset m : Int) (st : Hx711)
    (h : List Op) (r : Int) (st1 : Hx711) (h1 : List Op)
    (hinit : st.s_initialized = true) (hm : m ≠ 0)
    (hraw : hx711_read_raw host fuel st h = some (r, st1, h1))
    (hsub : fitsI32 (r - st.s_tare_offset - offset))
    (hmul : fitsI32 ((r - st.s_tare_offset - offset) * m)) :
    hx711_read_weight host fuel offset m st h =
      some (min 1000 (max 0 (Int.tdiv ((r - st.s_tare_offset - offset) * m) 1000)), st, h1) := by
  rw [hx711_read_weight_of_raw host fuel offset m st h r st1 h1 hinit hm hraw,
    weightFromRaw_eq,
    wrapI32_of_fits _ hsub.1 (by have := hsub.2; omega),
    wrapI32_of_fits _ hmul.1 (by have := hmul.2; omega)]

/-- The shift loop adds bit `i` of the samples at position `i`, first sample highest. -/
theorem shiftIn_spec (host : Host) (st : Hx711) :
    ∀ (n q : Nat) (h : List Op),
      shiftIn host st n (2 ^ n * q) h =
        (2 ^ n * q + ∑ i in Finset.range n,
            (host.digitalRead (sampleHist st h (n - 1 - i)) st.s_dout_pin).toNat * 2 ^ i,
         shiftHist st n h) := by
  intro n
  induction n with
  | zero => intro q h; simp [shiftIn, shiftHist]
  | succ n ih =>
    intro q h
    have hb := level_toNat_le (host.digitalRead (sampleHist st h 0) st.s_dout_pin)
    have hpos : 0 < 2 ^ n := Nat.two_pow_pos n
    have hlt : (host.digitalRead (sampleHist st h 0) st.s_dout_pin).toNat * 2 ^ n < 2 ^ (n + 1) := by
      have h2 : (host.digitalRead (sampleHist st h 0) st.s_dout_pin).toNat * 2 ^ n ≤ 1 * 2 ^ n :=
        Nat.mul_le_mul_right _ hb
      rw [Nat.pow_succ]; omega
    have hor : 2 ^ (n + 1) * q |||
        ((host.digitalRead (sampleHist st h 0) st.s_dout_pin).toNat <<< n)
        = 2 ^ n * (2 * q + (host.digitalRead (sampleHist st h 0) st.s_dout_pin).toNat) := by
      rw [Nat.shiftLeft_eq, ← Nat.mul_add_lt_is_or hlt, Nat.pow_succ]
      ring
    have hstep : shiftIn host st (n + 1) (2 ^ (n + 1) * q) h =
        shiftIn host st n (2 ^ (n + 1) * q |||
          ((host.digitalRead (sampleHist st h 0) st.s_dout_pin).toNat <<< n))
          (h ++ dataPulse st) := rfl
    rw [hstep, hor, ih, Finset.sum_range_succ]
    have hsum : ∑ i in Finset.range n,
        (host.digitalRead (sampleHist st (h ++ dataPulse st) (n - 1 - i)) st.s_dout_pin).toNat * 2 ^ i
        = ∑ i in Finset.range n,
        (host.digitalRead (sampleHist st h (n + 1 - 1 - i)) st.s_dout_pin).toNat * 2 ^ i := by
      apply Finset.sum_congr rfl
      intro i hi
      have hi2 : i < n := Finset.mem_range.mp hi
      have : n + 1 - 1 - i = (n - 1 - i) + 1 := by omega
      rw [this]
      rfl
    rw [hsum]
    have h0 : n + 1 - 1 - n = 0 := by omega
    rw [h0]
    simp only [shiftHist, Prod.mk.injEq, and_true]
    rw [Nat.pow_succ]
    ring

theorem shiftHist_eq_append (st : Hx711) :
    ∀ (n : Nat) (h : List Op),
      shiftHist st n h = h ++ (List.replicate n (dataPulse st)).flatten := by
  intro n
  induction n with
  | zero => intro h; simp [shiftHist]
  | succ n ih =>
    intro h
    simp only [shiftHist, ih, List.replicate_succ, List.flatten_cons, List.append_assoc]

/-- The raw read when the data line signals ready at poll `k`. -/
theorem hx711_read_raw_ready (host : Host) (fuel : Nat) (st : Hx711) (h : List Op) (k : Nat)
    (hinit : st.s_initialized = true) (hready : DataReadyAt host st h k) (hk : k < fuel) :
    hx711_read_raw host fuel st h =
      some (signExtend24 (shiftIn host st 24 0 (hxReadyHist st h k ++ [Op.millis])).1, st,
        shiftHist st 24 (hxReadyHist st h k ++ [Op.millis]) ++ selectPulse st) := by
  have hpoll := pollWhile_pin_exit host Clock.millis st.s_dout_pin Level.HIGH
    (hxTimeout host h) [Op.delayMicroseconds 1] k fuel (h ++ [Op.millis]) hready.1 hk
  have hchk := hready.2
  unfold hxTimeout at hpoll hchk
  unfold hxReadyHist at hchk ⊢
  unfold hx711_read_raw
  simp only [hinit, Bool.true_eq_false, if_false, hpoll, Nat.not_le.mpr hchk]
  have := shiftIn_spec host st 24 0
    (pollHist Clock.millis st.s_dout_pin [Op.delayMicroseconds 1] k (h ++ [Op.millis])
      ++ [Op.digitalRead st.s_dout_pin] ++ [Op.millis])
  simp only [Nat.mul_zero] at this
  rw [this]

theorem hxReadyHist_eq (st : Hx711) (h : List Op) (k : Nat) :
    hxReadyHist st h k ++ [Op.millis] = h ++ hxWaitOps st k := by
  unfold hxReadyHist hxWaitOps
  rw [pollHist_eq_append]
  simp [Clock.op]

theorem hxWaitOps_no_write (st : Hx711) (k : Nat) :
    ∀ op, op ∈ hxWaitOps st k → isWrite op = false := by
  intro op hop
  unfold hxWaitOps at hop
  simp only [List.mem_append, List.mem_flatten, List.mem_replicate, List.mem_cons,
    List.mem_singleton, List.not_mem_nil, or_false] at hop
  rcases hop with (rfl | ⟨l, ⟨-, rfl⟩, hl⟩) | rfl | rfl
  · rfl
  · simp only [List.mem_cons, List.mem_singleton, List.not_mem_nil, or_false] at hl
    rcases hl with rfl | rfl | rfl <;> rfl
  · rfl
  · rfl

theorem hxWaitOps_count_write (st : Hx711) (k : Nat) (p : Nat) (l : Level) :
    (hxWaitOps st k).count (Op.digitalWrite p l) = 0 := by
  apply List.count_eq_zero_of_not_mem
  intro hmem
  have := hxWaitOps_no_write st k _ hmem
  simp [isWrite] at this

theorem hxTimeoutOps_no_write (st : Hx711) (k : Nat) :
    ∀ op, op ∈ hxTimeoutOps st k → isWrite op = false := by
  intro op hop
  unfold hxTimeoutOps at hop
  simp only [List.mem_append, List.mem_flatten, List.mem_replicate, List.mem_cons,
    List.mem_singleton, List.not_mem_nil, or_false] at hop
  rcases hop with (rfl | ⟨l, ⟨-, rfl⟩, hl⟩) | rfl | rfl | rfl
  · rfl
  · simp only [List.mem_cons, List.mem_singleton, List.not_mem_nil, or_false] at hl
    rcases hl with rfl | rfl | rfl <;> rfl
  · rfl
  · rfl
  · rfl

theorem replicate_dataPulse_count_high (st : Hx711) (n : Nat) :
    ((List.replicate n (dataPulse st)).flatten).count
      (Op.digitalWrite st.s_sck_pin Level.HIGH) = n := by
  induction n with
  | zero => simp
  | succ n ih =>
    rw [List.replicate_succ, List.flatten_cons, List.count_append, ih]
    simp [dataPulse]
    omega

theorem replicate_dataPulse_count_low (st : Hx711) (n : Nat) :
    ((List.replicate n (dataPulse st)).flatten).count
      (Op.digitalWrite st.s_sck_pin Level.LOW) = n := by
  induction n with
  | zero => simp
  | succ n ih =>
    rw [List.replicate_succ, List.flatten_cons, List.count_append, ih]
    simp [dataPulse]
    omega

/-! ## The claims -/

/-- Claim C1: on an initialised weight driver, for a multiplier `m ≠ 0`, any
offset, any stored tare offset and any raw reading `r` returned by the internal
`hx711_read_raw` call, such that `r - tare_offset - offset` and its product with
`m` fit in an `int32_t`, `hx711_read_weight offset m` returns
`min 1000 (max 0 q)` where `q` is the product divided by 1000 with truncation
toward zero (and leaves the driver state as it was). -/
theorem hx711_read_weight_formula (host : Host) (fuel : Nat) (offset m : Int) (st : Hx711)
    (h : List Op) (r : Int) (st1 : Hx711) (h1 : List Op)
    (hinit : st.s_initialized = true) (hm : m ≠ 0)
    (hraw : hx711_read_raw host fuel st h = some (r, st1, h1))
    (hsub : fitsI32 (r - st.s_tare_offset - offset))
    (hmul : fitsI32 ((r - st.s_tare_offset - offset) * m)) :
    hx711_read_weight host fuel offset m st h =
      some (min 1000 (max 0 (Int.tdiv ((r - st.s_tare_offset - offset) * m) 1000)), st, h1) :=
  hx711_read_weight_fits host fuel offset m st h r st1 h1 hinit hm hraw hsub hmul

/-- Instance of C1: raw 2148, tare 2500, offset 100, multiplier -500 give 226 g. -/
theorem hx711_read_weight_formula_witness :
    (hx711_read_weight (adcHost 2148 0) 1 100 (-500) { readyHx with s_tare_offset := 2500 } []).map
      Prod.fst = some 226 :=
  congrArg (Option.map Prod.fst)
    (hx711_read_weight_formula (adcHost 2148 0) 1 100 (-500)
      { readyHx with s_tare_offset := 2500 } [] 2148 { readyHx with s_tare_offset := 2500 } _
      rfl (by decide) rfl (by decide) (by decide))

/-- Claim C2: on an initialised weight driver whose data line signals ready (at
poll `k` of the wait loop), if the sample taken during data pulse `23 - i` is
`b i` for every bit position `i < 24` (so the first sample is bit 23 and the last
is bit 0), then `hx711_read_raw` returns `v` when `b 23` is low and `v - 2^24`
when `b 23` is high, where `v = protocolValue b` is the sum of `b i * 2^i`. -/
theorem hx711_read_raw_sign_extends (host : Host) (fuel : Nat) (st : Hx711) (h : List Op)
    (k : Nat) (b : Nat → Level)
    (hinit : st.s_initialized = true) (hready : DataReadyAt host st h k) (hk : k < fuel)
    (hbits : ∀ i, i < 24 →
      host.digitalRead (sampleHist st (hxReadyHist st h k ++ [Op.millis]) (23 - i))
        st.s_dout_pin = b i) :
    hx711_read_raw host fuel st h =
      some (if b 23 = Level.HIGH then (protocolValue b : Int) - 16777216
            else (protocolValue b : Int),
        st, shiftHist st 24 (hxReadyHist st h k ++ [Op.millis]) ++ selectPulse st) := by
  rw [hx711_read_raw_ready host fuel st h k hinit hready hk]
  have hspec := shiftIn_spec host st 24 0 (hxReadyHist st h k ++ [Op.millis])
  simp only [Nat.mul_zero, Nat.zero_add] at hspec
  have hsum : ∑ i in Finset.range 24,
      (host.digitalRead (sampleHist st (hxReadyHist st h k ++ [Op.millis]) (24 - 1 - i))
        st.s_dout_pin).toNat * 2 ^ i = protocolValue b := by
    unfold protocolValue
    apply Finset.sum_congr rfl
    intro i hi
    rw [hbits i (Finset.mem_range.mp hi)]
  rw [hspec, hsum]
  have hlt : protocolValue b < 16777216 := by
    have := bits_sum_lt b 24
    unfold protocolValue
    omega
  have hlow := bits_sum_lt b 23
  have hsplit : protocolValue b =
      ∑ i in Finset.range 23, (b i).toNat * 2 ^ i + (b 23).toNat * 2 ^ 23 := by
    unfold protocolValue
    rw [Finset.sum_range_succ]
  rw [signExtend24_eq _ hlt]
  cases hb : b 23
  · have hb0 : (b 23).toNat = 0 := by rw [hb]; rfl
    rw [hb0] at hsplit
    have : protocolValue b < 8388608 := by omega
    simp [this]
  · have hb1 : (b 23).toNat = 1 := by rw [hb]; rfl
    rw [hb1] at hsplit
    have : ¬ protocolValue b < 8388608 := by omega
    simp [this]

/-- Instance of C2: the amplifier presents `0xABCDEF`, bit 23 set, and the read
returns `0xABCDEF - 2^24`. -/
theorem hx711_read_raw_sign_extends_witness :
    (hx711_read_raw (adcHost 0xABCDEF 0) 1 readyHx []).map Prod.fst
      = some ((11259375 : Int) - 16777216) ∧
    protocolValue (levelOfBit 0xABCDEF) = 11259375 :=
  ⟨(congrArg (Option.map Prod.fst)
    (hx711_read_raw_sign_extends (adcHost 0xABCDEF 0) 1 readyHx [] 0 (levelOfBit 0xABCDEF)
      rfl ⟨⟨fun i hi => absurd hi (Nat.not_lt_zero i), by decide⟩, by decide⟩
      (by decide) (by decide))).trans (by decide), by decide⟩

/-- Claim C3: on an initialised distance driver, if the echo line is seen high at
poll `k1` of the first loop before the first deadline, is seen low at poll `k2`
of the second loop, and the pulse width `W = echo_end - echo_start` (the clock
read after the echo was seen low minus the clock read as echo start) is at most
10000, then with more than `k1` and `k2` fuel `hc_sr04_read_distance` returns
`W * 343 / 2000` (floor, exactly), stores it in `s_last_distance`, and the
product `W * 343` is below `2^32`.  The case `W = 0` is covered as well. -/
theorem hc_sr04_read_distance_formula (host : Host) (fuel : Nat) (st : HcSr04) (h : List Op)
    (k1 k2 : Nat) (hinit : st.s_initialized = true)
    (hrise : PinExitAt host Clock.micros st.s_echo_pin Level.LOW (hcTimeout host st h) []
      (h ++ triggerPulse st ++ [Op.micros]) k1)
    (hchk : nowMicros host (hcRiseHist st h k1) < hcTimeout host st h)
    (hfall : PinExitAt host Clock.micros st.s_echo_pin Level.HIGH
      ((hcEchoStart host st h k1 + 10000) % 4294967296) []
      (hcRiseHist st h k1 ++ [Op.micros] ++ [Op.micros]) k2)
    (hW : hcPulseWidth host st h k1 k2 ≤ 10000)
    (hk1 : k1 < fuel) (hk2 : k2 < fuel) :
    hc_sr04_read_distance host fuel st h =
      some (((hcPulseWidth host st h k1 k2 * 343 / 2000 : Nat) : Int),
        { st with s_last_distance := ((hcPulseWidth host st h k1 k2 * 343 / 2000 : Nat) : Int) },
        hcFallHist st h k1 k2 ++ [Op.micros]) ∧
    hcPulseWidth host st h k1 k2 * 343 < 4294967296 := by
  have hp1 := pollWhile_pin_exit host Clock.micros st.s_echo_pin Level.LOW
    (hcTimeout host st h) [] k1 fuel _ hrise hk1
  have hp2 := pollWhile_pin_exit host Clock.micros st.s_echo_pin Level.HIGH
    _ [] k2 fuel _ hfall hk2
  refine ⟨?_, by omega⟩
  unfold hcPulseWidth hcEchoEnd hcFallHist at *
  unfold hcEchoStart hcRiseHist hcWaitHist at *
  unfold hcTimeout at *
  unfold hc_sr04_read_distance
  simp only [hinit, Bool.true_eq_false, if_false, hp1, Nat.not_le.mpr hchk, hp2]
  have hmod : ∀ w : Nat, w ≤ 10000 → u32ToI32 (w * 343 % 4294967296 / 2000)
      = ((w * 343 / 2000 : Nat) : Int) := by
    intro w hw
    unfold u32ToI32
    rw [Nat.mod_eq_of_lt (by omega), if_pos (by omega)]
  rw [hmod _ hW]

/-- Instance of C3: an echo pulse measured as 3000 us gives 514 mm. -/
theorem hc_sr04_read_distance_formula_witness :
    (hc_sr04_read_distance (tickHost (echoLevel 1000 4000) 0 100) 20 readyHc []).map Prod.fst
      = some 514 ∧ hcPulseWidth (tickHost (echoLevel 1000 4000) 0 100) readyHc [] 3 14 = 3000 :=
  ⟨(congrArg (Option.map Prod.fst)
    (hc_sr04_read_distance_formula (tickHost (echoLevel 1000 4000) 0 100) 20 readyHc [] 3 14
      rfl (by unfold PinExitAt; decide) (by decide) (by unfold PinExitAt; decide)
      (by decide) (by decide) (by decide)).1).trans (by decide), by decide⟩

/-- Timeout path of `hc_sr04_read_distance` when the clock does not run backwards
between the two reads: if every poll of the first loop sees the echo line low
until the loop reads a clock value that has reached the deadline (at poll `k`),
and the deadline check that follows reads a clock value that has reached the
deadline too, then the call returns exactly 1715 and stores 1715 in
`s_last_distance`. -/
theorem hc_sr04_read_distance_no_echo (host : Host) (fuel : Nat) (st : HcSr04) (h : List Op)
    (k : Nat) (hinit : st.s_initialized = true)
    (hwait : ClockExitAt host Clock.micros st.s_echo_pin Level.LOW (hcTimeout host st h) []
      (h ++ triggerPulse st ++ [Op.micros]) k)
    (hchk : hcTimeout host st h ≤
      nowMicros host (hcWaitHist st h k ++ [Op.digitalRead st.s_echo_pin] ++ [Op.micros]))
    (hk : k < fuel) :
    hc_sr04_read_distance host fuel st h =
      some (1715, { st with s_last_distance := 1715 },
        hcWaitHist st h k ++ [Op.digitalRead st.s_echo_pin] ++ [Op.micros] ++ [Op.micros]) := by
  have hp := pollWhile_clock_exit host Clock.micros st.s_echo_pin Level.LOW
    (hcTimeout host st h) [] k fuel _ hwait hk
  unfold hcWaitHist at *
  unfold hcTimeout at *
  unfold hc_sr04_read_distance
  simp only [hinit, Bool.true_eq_false, if_false, hp, Clock.op, hchk, if_true]
  rfl

/-- Instance of the timeout path: the echo line stays low and the clock passes
the deadline at the second poll. -/
theorem hc_sr04_read_distance_no_echo_witness :
    hc_sr04_read_distance (tickHost (fun _ => Level.LOW) 0 4000) 2 readyHc [] =
      some (1715, { readyHc with s_last_distance := 1715 },
        hcWaitHist readyHc [] 1 ++ [Op.digitalRead readyHc.s_echo_pin] ++ [Op.micros]
          ++ [Op.micros]) :=
  hc_sr04_read_distance_no_echo (tickHost (fun _ => Level.LOW) 0 4000) 2 readyHc [] 1 rfl
    (by unfold ClockExitAt; decide) (by decide) (by decide)

/-- Claim C5: the value returned by `hx711_read_weight` lies in `[0, 1000]`, for
every host, driver state, offset and multiplier.  The arithmetic after the raw
read is in `[0, 1000]` for every tare offset and every raw value, overflowing
ones included; every value the call returns is in `[0, 1000]`; and the call
returns whenever the raw read it contains returns. -/
theorem hx711_read_weight_clamped (host : Host) (fuel : Nat) (offset m : Int) (st : Hx711)
    (h : List Op) :
    (∀ tare_offset raw : Int,
      0 ≤ weightFromRaw tare_offset offset m raw ∧
      weightFromRaw tare_offset offset m raw ≤ 1000) ∧
    (∀ (w : Int) (st1 : Hx711) (h1 : List Op),
      hx711_read_weight host fuel offset m st h = some (w, st1, h1) → 0 ≤ w ∧ w ≤ 1000) ∧
    ((hx711_read_raw host fuel st h).isSome = true →
      (hx711_read_weight host fuel offset m st h).isSome = true) := by
  refine ⟨fun t r => weightFromRaw_bounds t offset m r, ?_, ?_⟩
  · intro w st1 h1 hw
    unfold hx711_read_weight at hw
    split at hw
    · simp at hw; omega
    · split at hw
      · simp at hw; omega
      · split at hw
        · simp at hw
        · simp only [Option.some.injEq, Prod.mk.injEq] at hw
          obtain ⟨hw, -, -⟩ := hw
          subst hw
          exact weightFromRaw_bounds _ _ _ _
  · intro hr
    unfold hx711_read_weight
    split
    · rfl
    · split
      · rfl
      · split
        · rename_i heq; rw [heq] at hr; simp at hr
        · rfl

/-- Instance of C5: a reading of 8388607 with multiplier 1000000 is reported as
1000, and the call returns for the extreme offset and multiplier. -/
theorem hx711_read_weight_clamped_witness :
    (0 : Int) ≤ 1000 ∧ (1000 : Int) ≤ 1000 ∧
    (hx711_read_weight (adcHost 0x7FFFFF 0) 1 (-2147483648) 2147483647 readyHx []).isSome
      = true :=
  ⟨((hx711_read_weight_clamped (adcHost 0x7FFFFF 0) 1 0 1000000 readyHx []).2.1
      1000 readyHx _ rfl).1,
   ((hx711_read_weight_clamped (adcHost 0x7FFFFF 0) 1 0 1000000 readyHx []).2.1
      1000 readyHx _ rfl).2,
   (hx711_read_weight_clamped (adcHost 0x7FFFFF 0) 1 (-2147483648) 2147483647 readyHx []).2.2
     rfl⟩

/-- Claim C6, amended: on an initialised weight driver with fixed tare offset and
offset and a multiplier `m ≠ 0`, for raw readings `r1 ≤ r2` such that
`r - tare_offset - offset` and its product with `m` fit in an `int32_t` for both
readings, the weight for `r1` is at most the weight for `r2` when `m > 0`, and at
least that weight when `m < 0`. -/
theorem hx711_read_weight_monotone (host1 host2 : Host) (fuel1 fuel2 : Nat) (offset m : Int)
    (st : Hx711) (h1 h2 : List Op) (r1 r2 : Int) (s1 s2 : Hx711) (g1 g2 : List Op)
    (hinit : st.s_initialized = true) (hm : m ≠ 0)
    (hraw1 : hx711_read_raw host1 fuel1 st h1 = some (r1, s1, g1))
    (hraw2 : hx711_read_raw host2 fuel2 st h2 = some (r2, s2, g2))
    (hle : r1 ≤ r2)
    (hsub1 : fitsI32 (r1 - st.s_tare_offset - offset))
    (hmul1 : fitsI32 ((r1 - st.s_tare_offset - offset) * m))
    (hsub2 : fitsI32 (r2 - st.s_tare_offset - offset))
    (hmul2 : fitsI32 ((r2 - st.s_tare_offset - offset) * m)) :
    ∃ w1 w2 : Int,
      hx711_read_weight host1 fuel1 offset m st h1 = some (w1, st, g1) ∧
      hx711_read_weight host2 fuel2 offset m st h2 = some (w2, st, g2) ∧
      (0 < m → w1 ≤ w2) ∧ (m < 0 → w2 ≤ w1) := by
  refine ⟨_, _,
    hx711_read_weight_fits host1 fuel1 offset m st h1 r1 s1 g1 hinit hm hraw1 hsub1 hmul1,
    hx711_read_weight_fits host2 fuel2 offset m st h2 r2 s2 g2 hinit hm hraw2 hsub2 hmul2,
    ?_, ?_⟩
  · intro hpos
    apply clamp_tdiv_mono
    exact Int.mul_le_mul_of_nonneg_right (by omega) (by omega)
  · intro hneg
    apply clamp_tdiv_mono
    exact Int.mul_le_mul_of_nonpos_right (by omega) (by omega)

/-- Instance of the amended C6: readings 100 and 200 with multiplier 1500. -/
theorem hx711_read_weight_monotone_witness :
    ∃ w1 w2 : Int,
      hx711_read_weight (adcHost 100 0) 1 10 1500 readyHx [] =
        some (w1, readyHx, ((hx711_read_raw (adcHost 100 0) 1 readyHx []).map
          (fun x => x.2.2)).getD []) ∧
      hx711_read_weight (adcHost 200 0) 1 10 1500 readyHx [] =
        some (w2, readyHx, ((hx711_read_raw (adcHost 200 0) 1 readyHx []).map
          (fun x => x.2.2)).getD []) ∧
      ((0 : Int) < 1500 → w1 ≤ w2) ∧ ((1500 : Int) < 0 → w2 ≤ w1) :=
  hx711_read_weight_monotone (adcHost 100 0) (adcHost 200 0) 1 1 10 1500 readyHx [] []
    100 200 readyHx readyHx _ _ rfl (by decide) rfl rfl (by decide)
    (by decide) (by decide) (by decide) (by decide)

/-- Claim C6 as stated fails: with tare offset 0, offset 0 and multiplier 1000000
the reading 2147 gives 1000 g and the larger reading 2148 gives 0 g, because
`2148 * 1000000` exceeds `2^31 - 1` and wraps to a negative `int32_t`. -/
theorem hx711_read_weight_overflow_not_monotone :
    (hx711_read_raw (adcHost 2147 0) 1 readyHx []).map Prod.fst = some 2147 ∧
    (hx711_read_raw (adcHost 2148 0) 1 readyHx []).map Prod.fst = some 2148 ∧
    (hx711_read_weight (adcHost 2147 0) 1 0 1000000 readyHx []).map Prod.fst = some 1000 ∧
    (hx711_read_weight (adcHost 2148 0) 1 0 1000000 readyHx []).map Prod.fst = some 0 := by
  decide

/-- Claim C7 as stated fails: a call on the driver in its start-up state issues no
host call at all, and a call on an initialised driver whose data line stays
high until the deadline issues reads and delays only; neither produces a clock
pulse. -/
theorem hx711_read_raw_no_pulse_when_not_ready :
    hx711_read_raw (adcHost 5 0) 1 Hx711.boot [] = some (0, Hx711.boot, []) ∧
    hx711_read_raw (tickHost (fun _ => Level.HIGH) 0 30) 2 readyHx [] =
      some (0, readyHx, [Op.millis, Op.digitalRead 4, Op.millis, Op.delayMicroseconds 1,
        Op.digitalRead 4, Op.millis, Op.millis]) := by
  decide

/-- Timeout path of `hx711_read_raw` when the clock does not run backwards
between the two reads: if every poll of the wait loop sees the data line high
until the loop reads a millisecond clock value that has reached the deadline
`millis() + 100` (at poll `k`), and the deadline check that follows reads a value
that has reached the deadline too, then the call returns 0 and none of the host
calls it issued is a `digitalWrite`. -/
theorem hx711_read_raw_timeout (host : Host) (fuel : Nat) (st : Hx711) (h : List Op)
    (k : Nat) (hinit : st.s_initialized = true)
    (hwait : ClockExitAt host Clock.millis st.s_dout_pin Level.HIGH (hxTimeout host h)
      [Op.delayMicroseconds 1] (h ++ [Op.millis]) k)
    (hchk : hxTimeout host h ≤ nowMillis host
      (pollHist Clock.millis st.s_dout_pin [Op.delayMicroseconds 1] k (h ++ [Op.millis])
        ++ [Op.digitalRead st.s_dout_pin] ++ [Op.millis]))
    (hk : k < fuel) :
    hx711_read_raw host fuel st h = some (0, st, h ++ hxTimeoutOps st k) ∧
    (∀ op, op ∈ hxTimeoutOps st k → isWrite op = false) := by
  refine ⟨?_, hxTimeoutOps_no_write st k⟩
  have hpoll := pollWhile_clock_exit host Clock.millis st.s_dout_pin Level.HIGH
    (hxTimeout host h) [Op.delayMicroseconds 1] k fuel (h ++ [Op.millis]) hwait hk
  unfold hxTimeout at hpoll hchk
  unfold hx711_read_raw
  simp only [hinit, Bool.true_eq_false, if_false, hpoll, Clock.op, hchk, if_true]
  rw [pollHist_eq_append]
  simp only [hxTimeoutOps, List.append_assoc, List.cons_append,
    List.nil_append, List.singleton_append]
  rfl

/-- Instance of the timeout path: the data line stays high and the clock passes
the deadline at the second poll. -/
theorem hx711_read_raw_timeout_witness :
    hx711_read_raw (tickHost (fun _ => Level.HIGH) 0 30) 2 readyHx [] =
      some (0, readyHx, [] ++ hxTimeoutOps readyHx 1) ∧
    (∀ op, op ∈ hxTimeoutOps readyHx 1 → isWrite op = false) :=
  hx711_read_raw_timeout (tickHost (fun _ => Level.HIGH) 0 30) 2 readyHx [] 1 rfl
    (by unfold ClockExitAt; decide) (by decide) (by decide)

/-- Claim C9 fails on the first call: started from any state with
`s_initialized = false`, `hx711_init` issues the two `pinMode` calls, one write of
`LOW`, and two delays; the discard read returns at once because the flag is
assigned after it, so the device is never clocked.  The state on return is as
claimed: the given pins, tare offset 0, initialised. -/
theorem hx711_init_first_call_skips_read (host : Host) (fuel : Nat)
    (dout_pin sck_pin d0 s0 : Nat) (t0 : Int) (h : List Op) :
    hx711_init host fuel dout_pin sck_pin
        { s_dout_pin := d0, s_sck_pin := s0, s_initialized := false, s_tare_offset := t0 } h =
      some ({ s_dout_pin := dout_pin, s_sck_pin := sck_pin, s_initialized := true,
              s_tare_offset := 0 },
        h ++ [Op.pinMode dout_pin PinDir.INPUT, Op.pinMode sck_pin PinDir.OUTPUT,
          Op.digitalWrite sck_pin Level.LOW, Op.delayMicroseconds 1] ++ [Op.delay 10]) := by
  simp [hx711_init, hx711_read_raw]

/-- Claim C10 fails: the deadline checks compare absolute clock values.  With
the millisecond clock 50 ms before the wrap, `hx711_read_raw` reports a timeout
(0, no clock pulse) for an amplifier that is ready at once and reads as -1 when
the clock starts at 0.  With the microsecond clock 5000 us before the wrap,
`hc_sr04_read_distance` returns 1715 after a single poll for an echo that reads
as 514 mm when the clock starts at 0. -/
theorem deadline_checks_false_timeout_near_wrap :
    (hx711_read_raw (adcHost 0xFFFFFF 0) 1 readyHx []).map Prod.fst = some (-1) ∧
    hx711_read_raw ((adcHost 0xFFFFFF 0).startAt 4294967246) 1 readyHx [] =
      some (0, readyHx, [Op.millis, Op.digitalRead 4, Op.millis]) ∧
    (hc_sr04_read_distance (tickHost (echoLevel 1000 4000) 0 100) 20 readyHc []).map Prod.fst
      = some 514 ∧
    hc_sr04_read_distance ((tickHost (echoLevel 1000 4000) 0 100).startAt 4294962296) 20
        readyHc [] =
      some (1715, { readyHc with s_last_distance := 1715 },
        [Op.digitalWrite 12 Level.HIGH, Op.delayMicroseconds 10, Op.digitalWrite 12 Level.LOW,
         Op.micros, Op.digitalRead 13, Op.micros, Op.micros]) := by
  decide

/-! ## Further lemmas and the claims C11 to C19 -/

theorem shiftIn_lt (host : Host) (st : Hx711) (h : List Op) :
    (shiftIn host st 24 0 h).1 < 16777216 := by
  have hspec := shiftIn_spec host st 24 0 h
  simp only [Nat.mul_zero, Nat.zero_add] at hspec
  rw [hspec]
  have := bits_sum_lt
    (fun i => host.digitalRead (sampleHist st h (24 - 1 - i)) st.s_dout_pin) 24
  simpa using this

theorem signExtend24_range (x : Nat) (hx : x < 16777216) :
    -8388608 ≤ signExtend24 x ∧ signExtend24 x ≤ 8388607 := by
  rw [signExtend24_eq x hx]
  split <;> omega

theorem hx711_read_raw_range (host : Host) (fuel : Nat) (st : Hx711) (h : List Op)
    (r : Int) (s : Hx711) (g : List Op)
    (hraw : hx711_read_raw host fuel st h = some (r, s, g)) :
    -8388608 ≤ r ∧ r ≤ 8388607 := by
  unfold hx711_read_raw at hraw
  split at hraw
  · simp only [Option.some.injEq, Prod.mk.injEq] at hraw
    omega
  · simp only at hraw
    split at hraw
    · simp at hraw
    · split at hraw
      · simp only [Option.some.injEq, Prod.mk.injEq] at hraw
        omega
      · simp only [Option.some.injEq, Prod.mk.injEq] at hraw
        rw [← hraw.1]
        exact signExtend24_range _ (shiftIn_lt host st _)

/-- Claim C13: `hc_sr04_read_distance` on a driver that is not initialised returns
-1 for every host, leaves the history as it was (no host call at all, so no
write to the trigger pin and no read of the echo pin) and leaves the state,
`s_last_distance` included, as it was. -/
theorem hc_sr04_read_distance_uninitialized (host : Host) (fuel : Nat) (st : HcSr04)
    (h : List Op) (hinit : st.s_initialized = false) :
    hc_sr04_read_distance host fuel st h = some (-1, st, h) := by
  simp [hc_sr04_read_distance, hinit]

theorem hc_sr04_read_distance_uninitialized_witness :
    hc_sr04_read_distance (tickHost (echoLevel 1000 4000) 0 100) 0 HcSr04.boot [] =
      some (-1, HcSr04.boot, []) :=
  hc_sr04_read_distance_uninitialized (tickHost (echoLevel 1000 4000) 0 100) 0 HcSr04.boot []
    rfl

/-- Claim C14: `hx711_read_weight offset m` returns 0 for every offset, host and
driver state whenever the driver is not initialised or `m = 0`; it returns at
the guard, with state and history unchanged, so before the raw read and the
division that follow it in the source. -/
theorem hx711_read_weight_guards (host : Host) (fuel : Nat) (offset m : Int) (st : Hx711)
    (h : List Op) (hguard : st.s_initialized = false ∨ m = 0) :
    hx711_read_weight host fuel offset m st h = some (0, st, h) := by
  unfold hx711_read_weight
  rcases hguard with hi | hm
  · simp [hi]
  · subst hm
    cases hi : st.s_initialized <;> simp

theorem hx711_read_weight_guards_witness :
    hx711_read_weight (adcHost 5 0) 0 77 0 readyHx [] = some (0, readyHx, []) ∧
    hx711_read_weight (adcHost 5 0) 0 77 3 Hx711.boot [] = some (0, Hx711.boot, []) :=
  ⟨hx711_read_weight_guards (adcHost 5 0) 0 77 0 readyHx [] (Or.inr rfl),
   hx711_read_weight_guards (adcHost 5 0) 0 77 3 Hx711.boot [] (Or.inl rfl)⟩

theorem distance_of_duration_range (d : Nat) :
    0 ≤ u32ToI32 (d * 343 % 4294967296 / 2000) ∧
    u32ToI32 (d * 343 % 4294967296 / 2000) ≤ 2147483 := by
  unfold u32ToI32
  have : d * 343 % 4294967296 / 2000 ≤ 2147483 := by omega
  rw [if_pos (by omega)]
  omega

theorem hc_sr04_read_distance_range (host : Host) (fuel : Nat) (st : HcSr04) (h : List Op)
    (r : Int) (s : HcSr04) (g : List Op) (hinit : st.s_initialized = true)
    (hread : hc_sr04_read_distance host fuel st h = some (r, s, g)) :
    0 ≤ r ∧ r ≤ 2147483 := by
  unfold hc_sr04_read_distance at hread
  simp only [hinit, Bool.true_eq_false, if_false] at hread
  split at hread
  · simp at hread
  · split at hread
    · simp only [Option.some.injEq, Prod.mk.injEq] at hread
      have h1715 : Int.tdiv (10000 * 343) 2000 = 1715 := by decide
      rw [h1715] at hread
      have hr := hread.1
      omega
    · split at hread
      · simp at hread
      · simp only [Option.some.injEq, Prod.mk.injEq] at hread
        rw [← hread.1]
        exact distance_of_duration_range _

/-- Claim C19: a value returned by `hc_sr04_read_distance` is -1 exactly when the
driver is not initialised, and an uninitialised driver does return -1; on an
initialised driver the value is between 0 and 2147483, as is the distance
computed from any echo duration with the product taken modulo `2^32`. -/
theorem hc_sr04_read_distance_sentinel (host : Host) (fuel : Nat) (st : HcSr04)
    (h : List Op) :
    (∀ (r : Int) (s : HcSr04) (g : List Op),
      hc_sr04_read_distance host fuel st h = some (r, s, g) →
        (r = -1 ↔ st.s_initialized = false) ∧
        (st.s_initialized = true → 0 ≤ r ∧ r ≤ 2147483)) ∧
    (st.s_initialized = false → hc_sr04_read_distance host fuel st h = some (-1, st, h)) ∧
    (∀ d : Nat, 0 ≤ u32ToI32 (d * 343 % 4294967296 / 2000) ∧
      u32ToI32 (d * 343 % 4294967296 / 2000) ≤ 2147483) := by
  refine ⟨?_, ?_, distance_of_duration_range⟩
  · intro r s g hread
    cases hi : st.s_initialized
    · simp only [hc_sr04_read_distance, hi, if_true, Option.some.injEq, Prod.mk.injEq] at hread
      simp [← hread.1]
    · have := hc_sr04_read_distance_range host fuel st h r s g hi hread
      refine ⟨⟨fun h1 => by omega, fun h2 => by simp at h2⟩, fun _ => this⟩
  · intro hi
    simp [hc_sr04_read_distance, hi]

theorem hc_sr04_read_distance_sentinel_witness :
    (((514 : Int) = -1 ↔ readyHc.s_initialized = false) ∧
      (readyHc.s_initialized = true → (0 : Int) ≤ 514 ∧ (514 : Int) ≤ 2147483)) ∧
    hc_sr04_read_distance (tickHost (echoLevel 1000 4000) 0 100) 20 HcSr04.boot [] =
      some (-1, HcSr04.boot, []) :=
  ⟨(hc_sr04_read_distance_sentinel (tickHost (echoLevel 1000 4000) 0 100) 20 readyHc []).1
      514 _ _ rfl,
   (hc_sr04_read_distance_sentinel (tickHost (echoLevel 1000 4000) 0 100) 20 HcSr04.boot
      []).2.1 rfl⟩

theorem tareLoop_succ (host : Host) (fuel n : Nat) (sum : Int) (st : Hx711) (h : List Op)
    (r : Int) (s : Hx711) (g : List Op)
    (hraw : hx711_read_raw host fuel st h = some (r, s, g)) :
    tareLoop host fuel (n + 1) sum st h =
      tareLoop host fuel n (wrapI32 (sum + r)) st (g ++ [Op.delay 10]) := by
  have hs := hx711_read_raw_state host fuel st h r s g hraw
  subst hs
  simp only [tareLoop, hraw]

theorem hx711_tare_of_reads (host : Host) (fuel : Nat) (st : Hx711) (h : List Op)
    (r1 r2 r3 r4 r5 : Int) (s1 s2 s3 s4 s5 : Hx711) (h1 h2 h3 h4 h5 : List Op)
    (hinit : st.s_initialized = true)
    (hraw1 : hx711_read_raw host fuel st h = some (r1, s1, h1))
    (hraw2 : hx711_read_raw host fuel st (h1 ++ [Op.delay 10]) = some (r2, s2, h2))
    (hraw3 : hx711_read_raw host fuel st (h2 ++ [Op.delay 10]) = some (r3, s3, h3))
    (hraw4 : hx711_read_raw host fuel st (h3 ++ [Op.delay 10]) = some (r4, s4, h4))
    (hraw5 : hx711_read_raw host fuel st (h4 ++ [Op.delay 10]) = some (r5, s5, h5)) :
    hx711_tare host fuel st h =
      some ({ st with s_tare_offset := Int.tdiv (r1 + r2 + r3 + r4 + r5) 5 },
        h5 ++ [Op.delay 10]) ∧
    fitsI32 (r1 + r2 + r3 + r4 + r5) := by
  have b1 := hx711_read_raw_range _ _ _ _ _ _ _ hraw1
  have b2 := hx711_read_raw_range _ _ _ _ _ _ _ hraw2
  have b3 := hx711_read_raw_range _ _ _ _ _ _ _ hraw3
  have b4 := hx711_read_raw_range _ _ _ _ _ _ _ hraw4
  have b5 := hx711_read_raw_range _ _ _ _ _ _ _ hraw5
  refine ⟨?_, by constructor <;> omega⟩
  unfold hx711_tare
  rw [if_pos hinit, tareLoop_succ _ _ _ _ _ _ _ _ _ hraw1, tareLoop_succ _ _ _ _ _ _ _ _ _ hraw2,
    tareLoop_succ _ _ _ _ _ _ _ _ _ hraw3, tareLoop_succ _ _ _ _ _ _ _ _ _ hraw4,
    tareLoop_succ _ _ _ _ _ _ _ _ _ hraw5]
  have hsum : wrapI32 (wrapI32 (wrapI32 (wrapI32 (wrapI32 (0 + r1) + r2) + r3) + r4) + r5)
      = r1 + r2 + r3 + r4 + r5 := by
    unfold wrapI32; omega
  simp only [tareLoop, hsum]

/-- Claim C11: on an initialised weight driver, if the five raw reads that
`hx711_tare` performs one after the other (each followed by `delay(10)`) return
`r1 .. r5`, then `hx711_tare` returns with `s_tare_offset` set to
`(r1 + r2 + r3 + r4 + r5) / 5` truncated toward zero, the rest of the state
unchanged and the history that of exactly these five reads; the sum fits in an
`int32_t`.  On an uninitialised driver `hx711_tare` changes neither the state
nor the history. -/
theorem hx711_tare_average (host : Host) (fuel : Nat) (st : Hx711) (h : List Op)
    (r1 r2 r3 r4 r5 : Int) (s1 s2 s3 s4 s5 : Hx711) (h1 h2 h3 h4 h5 : List Op)
    (hinit : st.s_initialized = true)
    (hraw1 : hx711_read_raw host fuel st h = some (r1, s1, h1))
    (hraw2 : hx711_read_raw host fuel st (h1 ++ [Op.delay 10]) = some (r2, s2, h2))
    (hraw3 : hx711_read_raw host fuel st (h2 ++ [Op.delay 10]) = some (r3, s3, h3))
    (hraw4 : hx711_read_raw host fuel st (h3 ++ [Op.delay 10]) = some (r4, s4, h4))
    (hraw5 : hx711_read_raw host fuel st (h4 ++ [Op.delay 10]) = some (r5, s5, h5)) :
    (hx711_tare host fuel st h =
      some ({ st with s_tare_offset := Int.tdiv (r1 + r2 + r3 + r4 + r5) 5 },
        h5 ++ [Op.delay 10]) ∧
     fitsI32 (r1 + r2 + r3 + r4 + r5)) ∧
    (∀ (st0 : Hx711) (h0 : List Op), st0.s_initialized = false →
      hx711_tare host fuel st0 h0 = some (st0, h0)) := by
  refine ⟨hx711_tare_of_reads host fuel st h r1 r2 r3 r4 r5 s1 s2 s3 s4 s5 h1 h2 h3 h4 h5
    hinit hraw1 hraw2 hraw3 hraw4 hraw5, ?_⟩
  intro st0 h0 h0i
  simp [hx711_tare, h0i]

theorem hx711_tare_average_witness :
    (hx711_tare (streamAdcHost tareSamples 0) 1 readyHx []).map
      (fun x => x.1.s_tare_offset) = some (-1) ∧
    hx711_tare (streamAdcHost tareSamples 0) 1 Hx711.boot [] = some (Hx711.boot, []) :=
  have w := hx711_tare_average (streamAdcHost tareSamples 0) 1 readyHx []
    (-3) (-3) (-3) 0 0 readyHx readyHx readyHx readyHx readyHx
    (readEnd (streamAdcHost tareSamples 0) 1 readyHx 0)
    (readEnd (streamAdcHost tareSamples 0) 1 readyHx 1)
    (readEnd (streamAdcHost tareSamples 0) 1 readyHx 2)
    (readEnd (streamAdcHost tareSamples 0) 1 readyHx 3)
    (readEnd (streamAdcHost tareSamples 0) 1 readyHx 4)
    rfl (by decide) (by decide) (by decide) (by decide) (by decide)
  ⟨(congrArg (Option.map (fun x => x.1.s_tare_offset)) w.1.1).trans (by decide),
   w.2 Hx711.boot [] rfl⟩

theorem tareLoop_state (host : Host) (fuel : Nat) :
    ∀ (n : Nat) (sum : Int) (st : Hx711) (h : List Op) (total : Int) (s : Hx711)
      (g : List Op), tareLoop host fuel n sum st h = some (total, s, g) → s = st := by
  intro n
  induction n with
  | zero =>
    intro sum st h total s g hl
    simp only [tareLoop, Option.some.injEq, Prod.mk.injEq] at hl
    exact hl.2.1.symm
  | succ n ih =>
    intro sum st h total s g hl
    simp only [tareLoop] at hl
    split at hl
    · simp at hl
    · rename_i raw st1 h1 heq
      have h1s := hx711_read_raw_state host fuel st h raw st1 h1 heq
      subst h1s
      exact ih _ _ _ _ _ _ hl

theorem hx711_tare_state (host : Host) (fuel : Nat) (st : Hx711) (h : List Op)
    (s : Hx711) (g : List Op) (htare : hx711_tare host fuel st h = some (s, g)) :
    s.s_dout_pin = st.s_dout_pin ∧ s.s_sck_pin = st.s_sck_pin ∧
    s.s_initialized = st.s_initialized := by
  unfold hx711_tare at htare
  split at htare
  · split at htare
    · simp at htare
    · rename_i total st1 h1 heq
      have := tareLoop_state host fuel 5 0 st h total st1 h1 heq
      subst this
      simp only [Option.some.injEq, Prod.mk.injEq] at htare
      rw [← htare.1]
      exact ⟨rfl, rfl, rfl⟩
  · simp only [Option.some.injEq, Prod.mk.injEq] at htare
    rw [← htare.1]
    exact ⟨rfl, rfl, rfl⟩

theorem weightFromRaw_at_tare (t m : Int) : weightFromRaw t 0 m t = 0 := by
  simp [weightFromRaw, wrapI32]

theorem hx711_read_weight_at_tare (host : Host) (fuel : Nat) (m : Int) (st : Hx711)
    (h : List Op) (r : Int) (s : Hx711) (g : List Op)
    (hinit : st.s_initialized = true)
    (hraw : hx711_read_raw host fuel st h = some (r, s, g))
    (heq : r = st.s_tare_offset) :
    (hx711_read_weight host fuel 0 m st h).map Prod.fst = some 0 := by
  by_cases hm : m = 0
  · subst hm
    simp [hx711_read_weight, hinit]
  · rw [hx711_read_weight_of_raw host fuel 0 m st h r s g hinit hm hraw, heq,
      weightFromRaw_at_tare]
    rfl

/-- Claim C12: on an initialised weight driver, after `hx711_tare` has run, if
the next raw reading `r` equals the stored tare offset then
`hx711_read_weight 0 m` returns 0 for every multiplier `m`, zero or not; in
particular it returns 0 when the five tare readings and the next reading are
all the same value `r`. -/
theorem hx711_read_weight_after_tare (host : Host) (fuel : Nat) (m : Int) (st : Hx711)
    (h : List Op) (st1 : Hx711) (h1 : List Op) (r : Int) (s : Hx711) (g : List Op)
    (hinit : st.s_initialized = true)
    (htare : hx711_tare host fuel st h = some (st1, h1))
    (hraw : hx711_read_raw host fuel st1 h1 = some (r, s, g)) :
    (r = st1.s_tare_offset →
      (hx711_read_weight host fuel 0 m st1 h1).map Prod.fst = some 0) ∧
    (∀ (s1 s2 s3 s4 s5 : Hx711) (g1 g2 g3 g4 g5 : List Op),
      hx711_read_raw host fuel st h = some (r, s1, g1) →
      hx711_read_raw host fuel st (g1 ++ [Op.delay 10]) = some (r, s2, g2) →
      hx711_read_raw host fuel st (g2 ++ [Op.delay 10]) = some (r, s3, g3) →
      hx711_read_raw host fuel st (g3 ++ [Op.delay 10]) = some (r, s4, g4) →
      hx711_read_raw host fuel st (g4 ++ [Op.delay 10]) = some (r, s5, g5) →
      (hx711_read_weight host fuel 0 m st1 h1).map Prod.fst = some 0) := by
  have hst := hx711_tare_state host fuel st h st1 h1 htare
  have hinit1 : st1.s_initialized = true := by rw [hst.2.2, hinit]
  refine ⟨fun heq => hx711_read_weight_at_tare host fuel m st1 h1 r s g hinit1 hraw heq, ?_⟩
  intro s1 s2 s3 s4 s5 g1 g2 g3 g4 g5 e1 e2 e3 e4 e5
  have ht := (hx711_tare_of_reads host fuel st h r r r r r s1 s2 s3 s4 s5 g1 g2 g3 g4 g5
    hinit e1 e2 e3 e4 e5).1
  rw [htare] at ht
  simp only [Option.some.injEq, Prod.mk.injEq] at ht
  have h5 : Int.tdiv (r + r + r + r + r) 5 = r := by
    have : r + r + r + r + r = r * 5 := by ring
    rw [this]
    exact Int.mul_tdiv_cancel r (by decide)
  have heq : r = st1.s_tare_offset := by
    rw [ht.1, h5]
  exact hx711_read_weight_at_tare host fuel m st1 h1 r s g hinit1 hraw heq

set_option maxRecDepth 100000 in
theorem hx711_read_weight_after_tare_witness :
    (hx711_read_weight (streamAdcHost (fun _ => 1000) 0) 1 0 7
      { readyHx with s_tare_offset := 1000 }
      (readEnd (streamAdcHost (fun _ => 1000) 0) 1 readyHx 4 ++ [Op.delay 10])).map Prod.fst
      = some 0 :=
  (hx711_read_weight_after_tare (streamAdcHost (fun _ => 1000) 0) 1 7 readyHx []
    { readyHx with s_tare_offset := 1000 }
    (readEnd (streamAdcHost (fun _ => 1000) 0) 1 readyHx 4 ++ [Op.delay 10])
    1000 { readyHx with s_tare_offset := 1000 }
    (readEnd (streamAdcHost (fun _ => 1000) 0) 1 readyHx 5)
    rfl (by decide) (by decide)).1 rfl

theorem hx711_read_weight_state (host : Host) (fuel : Nat) (offset m : Int) (st : Hx711)
    (h : List Op) (w : Int) (s : Hx711) (g : List Op)
    (hw : hx711_read_weight host fuel offset m st h = some (w, s, g)) : s = st := by
  unfold hx711_read_weight at hw
  split at hw
  · simp only [Option.some.injEq, Prod.mk.injEq] at hw; exact hw.2.1.symm
  · split at hw
    · simp only [Option.some.injEq, Prod.mk.injEq] at hw; exact hw.2.1.symm
    · split at hw
      · simp at hw
      · rename_i raw st1 h1 heq
        simp only [Option.some.injEq, Prod.mk.injEq] at hw
        rw [← hw.2.1]
        exact hx711_read_raw_state host fuel st h raw st1 h1 heq

theorem hx711_get_raw_debug_eq (host : Host) (fuel : Nat) (st : Hx711) (h : List Op) :
    hx711_get_raw_debug host fuel st h = hx711_read_raw host fuel st h := by
  unfold hx711_get_raw_debug
  cases hi : st.s_initialized
  · simp [hx711_read_raw, hi]
  · simp

theorem hx711_init_state (host : Host) (fuel : Nat) (d k : Nat) (st : Hx711) (h : List Op)
    (s : Hx711) (g : List Op) (hi : hx711_init host fuel d k st h = some (s, g)) :
    s = { s_dout_pin := d, s_sck_pin := k, s_initialized := true, s_tare_offset := 0 } := by
  unfold hx711_init at hi
  simp only at hi
  split at hi
  · simp at hi
  · rename_i r st2 h2 heq
    have := hx711_read_raw_state host fuel _ _ r st2 h2 heq
    subst this
    simp only [Option.some.injEq, Prod.mk.injEq] at hi
    rw [← hi.1]

theorem hxStep_initialized (host : Host) (fuel : Nat) (c : HxCall) (st : Hx711) (h : List Op)
    (s : Hx711) (g : List Op) (hinit : st.s_initialized = true)
    (hstep : hxStep host fuel c st h = some (s, g)) : s.s_initialized = true := by
  cases c with
  | init d k =>
    have := hx711_init_state host fuel d k st h s g hstep
    rw [this]
  | read_raw =>
    simp only [hxStep, Option.map_eq_some'] at hstep
    obtain ⟨⟨r, s1, g1⟩, hr, he⟩ := hstep
    simp only [Prod.mk.injEq] at he
    rw [← he.1, hx711_read_raw_state host fuel st h r s1 g1 hr, hinit]
  | read_weight o m =>
    simp only [hxStep, Option.map_eq_some'] at hstep
    obtain ⟨⟨r, s1, g1⟩, hr, he⟩ := hstep
    simp only [Prod.mk.injEq] at he
    rw [← he.1, hx711_read_weight_state host fuel o m st h r s1 g1 hr, hinit]
  | tare =>
    rw [(hx711_tare_state host fuel st h s g hstep).2.2, hinit]
  | get_tare_offset =>
    simp only [hxStep, hx711_get_tare_offset, Option.some.injEq, Prod.mk.injEq] at hstep
    rw [← hstep.1, hinit]
  | get_raw_debug =>
    simp only [hxStep, hx711_get_raw_debug_eq, Option.map_eq_some'] at hstep
    obtain ⟨⟨r, s1, g1⟩, hr, he⟩ := hstep
    simp only [Prod.mk.injEq] at he
    rw [← he.1, hx711_read_raw_state host fuel st h r s1 g1 hr, hinit]
  | is_initialized =>
    simp only [hxStep, hx711_is_initialized, Option.some.injEq, Prod.mk.injEq] at hstep
    rw [← hstep.1, hinit]

theorem hxRun_initialized (host : Host) (fuel : Nat) :
    ∀ (calls : List HxCall) (st : Hx711) (h : List Op) (s : Hx711) (g : List Op),
      st.s_initialized = true → hxRun host fuel calls st h = some (s, g) →
      s.s_initialized = true := by
  intro calls
  induction calls with
  | nil =>
    intro st h s g hinit hrun
    simp only [hxRun, Option.some.injEq, Prod.mk.injEq] at hrun
    rw [← hrun.1, hinit]
  | cons c cs ih =>
    intro st h s g hinit hrun
    simp only [hxRun] at hrun
    split at hrun
    · simp at hrun
    · rename_i st1 h1 heq
      exact ih st1 h1 s g (hxStep_initialized host fuel c st h st1 h1 hinit heq) hrun

theorem hc_sr04_read_distance_pins (host : Host) (fuel : Nat) (st : HcSr04) (h : List Op)
    (r : Int) (s : HcSr04) (g : List Op)
    (hread : hc_sr04_read_distance host fuel st h = some (r, s, g)) :
    s.s_trig_pin = st.s_trig_pin ∧ s.s_echo_pin = st.s_echo_pin ∧
    s.s_initialized = st.s_initialized := by
  unfold hc_sr04_read_distance at hread
  split at hread
  · simp only [Option.some.injEq, Prod.mk.injEq] at hread
    rw [← hread.2.1]; exact ⟨rfl, rfl, rfl⟩
  · simp only at hread
    split at hread
    · simp at hread
    · split at hread
      · simp only [Option.some.injEq, Prod.mk.injEq] at hread
        rw [← hread.2.1]; exact ⟨rfl, rfl, rfl⟩
      · split at hread
        · simp at hread
        · simp only [Option.some.injEq, Prod.mk.injEq] at hread
          rw [← hread.2.1]; exact ⟨rfl, rfl, rfl⟩

theorem hcStep_initialized (host : Host) (fuel : Nat) (c : HcCall) (st : HcSr04)
    (h : List Op) (s : HcSr04) (g : List Op) (hinit : st.s_initialized = true)
    (hstep : hcStep host fuel c st h = some (s, g)) : s.s_initialized = true := by
  cases c with
  | init t e =>
    simp only [hcStep, hc_sr04_init, Option.some.injEq, Prod.mk.injEq] at hstep
    rw [← hstep.1]
  | read_distance =>
    simp only [hcStep, Option.map_eq_some'] at hstep
    obtain ⟨⟨r, s1, g1⟩, hr, he⟩ := hstep
    simp only [Prod.mk.injEq] at he
    rw [← he.1, (hc_sr04_read_distance_pins host fuel st h r s1 g1 hr).2.2, hinit]
  | is_initialized =>
    simp only [hcStep, hc_sr04_is_initialized, Option.some.injEq, Prod.mk.injEq] at hstep
    rw [← hstep.1, hinit]

theorem hcRun_initialized (host : Host) (fuel : Nat) :
    ∀ (calls : List HcCall) (st : HcSr04) (h : List Op) (s : HcSr04) (g : List Op),
      st.s_initialized = true → hcRun host fuel calls st h = some (s, g) →
      s.s_initialized = true := by
  intro calls
  induction calls with
  | nil =>
    intro st h s g hinit hrun
    simp only [hcRun, Option.some.injEq, Prod.mk.injEq] at hrun
    rw [← hrun.1, hinit]
  | cons c cs ih =>
    intro st h s g hinit hrun
    simp only [hcRun] at hrun
    split at hrun
    · simp at hrun
    · rename_i st1 h1 heq
      exact ih st1 h1 s g (hcStep_initialized host fuel c st h st1 h1 hinit heq) hrun

/-- Claim C15: for both drivers and all pin numbers, `is_initialized` is false in
the start-up state and true right after `init` (which returns from the start-up
state, and yields true from any state it returns from); and once true it is true
after every sequence of calls of that driver. -/
theorem is_initialized_lifecycle (host : Host) (fuel : Nat) (dout_pin sck_pin trig_pin
    echo_pin : Nat) (h : List Op) :
    (hx711_is_initialized Hx711.boot h).1 = false ∧
    (hc_sr04_is_initialized HcSr04.boot h).1 = false ∧
    (∃ (s : Hx711) (g : List Op),
      hx711_init host fuel dout_pin sck_pin Hx711.boot h = some (s, g) ∧
      (hx711_is_initialized s g).1 = true) ∧
    (∀ (st s : Hx711) (h0 g : List Op),
      hx711_init host fuel dout_pin sck_pin st h0 = some (s, g) →
      (hx711_is_initialized s g).1 = true) ∧
    (∀ (st : HcSr04) (h0 : List Op),
      (hc_sr04_is_initialized (hc_sr04_init trig_pin echo_pin st h0).1
        (hc_sr04_init trig_pin echo_pin st h0).2).1 = true) ∧
    (∀ (calls : List HxCall) (st s : Hx711) (h0 g : List Op),
      (hx711_is_initialized st h0).1 = true → hxRun host fuel calls st h0 = some (s, g) →
      (hx711_is_initialized s g).1 = true) ∧
    (∀ (calls : List HcCall) (st s : HcSr04) (h0 g : List Op),
      (hc_sr04_is_initialized st h0).1 = true → hcRun host fuel calls st h0 = some (s, g) →
      (hc_sr04_is_initialized s g).1 = true) := by
  refine ⟨rfl, rfl, ?_, ?_, ?_, ?_, ?_⟩
  · refine ⟨⟨dout_pin, sck_pin, true, 0⟩, h ++ [Op.pinMode dout_pin PinDir.INPUT,
      Op.pinMode sck_pin PinDir.OUTPUT, Op.digitalWrite sck_pin Level.LOW,
      Op.delayMicroseconds 1] ++ [Op.delay 10], ?_, rfl⟩
    simp [hx711_init, hx711_read_raw, Hx711.boot]
  · intro st s h0 g hi
    rw [hx711_init_state host fuel dout_pin sck_pin st h0 s g hi]
    rfl
  · intro st h0
    rfl
  · intro calls st s h0 g hinit hrun
    exact hxRun_initialized host fuel calls st h0 s g hinit hrun
  · intro calls st s h0 g hinit hrun
    exact hcRun_initialized host fuel calls st h0 s g hinit hrun

theorem is_initialized_lifecycle_witness :
    (hx711_is_initialized readyHx (readEnd (adcHost 5 0) 1 readyHx 0)).1 = true ∧
    (hc_sr04_is_initialized (hc_sr04_init 12 13 HcSr04.boot []).1
      (hc_sr04_init 12 13 HcSr04.boot []).2).1 = true :=
  ⟨(is_initialized_lifecycle (adcHost 5 0) 1 4 5 12 13 []).2.2.2.2.2.1
      [HxCall.read_raw, HxCall.get_tare_offset] readyHx readyHx []
      (readEnd (adcHost 5 0) 1 readyHx 0) rfl (by decide),
   (is_initialized_lifecycle (adcHost 5 0) 1 4 5 12 13 []).2.2.2.2.1 HcSr04.boot []⟩

theorem hxStep_keepsTare (host : Host) (fuel : Nat) (c : HxCall) (st : Hx711) (h : List Op)
    (s : Hx711) (g : List Op) (hc : c.keepsTare = true)
    (hstep : hxStep host fuel c st h = some (s, g)) : s = st := by
  cases c with
  | init d k => simp [HxCall.keepsTare] at hc
  | tare => simp [HxCall.keepsTare] at hc
  | read_raw =>
    simp only [hxStep, Option.map_eq_some'] at hstep
    obtain ⟨⟨r, s1, g1⟩, hr, he⟩ := hstep
    simp only [Prod.mk.injEq] at he
    rw [← he.1, hx711_read_raw_state host fuel st h r s1 g1 hr]
  | read_weight o m =>
    simp only [hxStep, Option.map_eq_some'] at hstep
    obtain ⟨⟨r, s1, g1⟩, hr, he⟩ := hstep
    simp only [Prod.mk.injEq] at he
    rw [← he.1, hx711_read_weight_state host fuel o m st h r s1 g1 hr]
  | get_tare_offset =>
    simp only [hxStep, hx711_get_tare_offset, Option.some.injEq, Prod.mk.injEq] at hstep
    exact hstep.1.symm
  | get_raw_debug =>
    simp only [hxStep, hx711_get_raw_debug_eq, Option.map_eq_some'] at hstep
    obtain ⟨⟨r, s1, g1⟩, hr, he⟩ := hstep
    simp only [Prod.mk.injEq] at he
    rw [← he.1, hx711_read_raw_state host fuel st h r s1 g1 hr]
  | is_initialized =>
    simp only [hxStep, hx711_is_initialized, Option.some.injEq, Prod.mk.injEq] at hstep
    exact hstep.1.symm

theorem hxRun_keepsTare (host : Host) (fuel : Nat) :
    ∀ (calls : List HxCall) (st : Hx711) (h : List Op) (s : Hx711) (g : List Op),
      (∀ c, c ∈ calls → c.keepsTare = true) → hxRun host fuel calls st h = some (s, g) →
      s = st := by
  intro calls
  induction calls with
  | nil =>
    intro st h s g _ hrun
    simp only [hxRun, Option.some.injEq, Prod.mk.injEq] at hrun
    exact hrun.1.symm
  | cons c cs ih =>
    intro st h s g hall hrun
    simp only [hxRun] at hrun
    split at hrun
    · simp at hrun
    · rename_i st1 h1 heq
      have h1s := hxStep_keepsTare host fuel c st h st1 h1 (hall c (List.mem_cons_self c cs)) heq
      subst h1s
      exact ih _ h1 s g (fun c' hc' => hall c' (List.mem_cons_of_mem c hc')) hrun

/-- Claim C18: `hx711_read_raw`, `hx711_read_weight`, `hx711_get_tare_offset`,
`hx711_get_raw_debug` and `hx711_is_initialized` return the driver state they
were given, for every input and host; the tare offset is 0 at start-up and 0
after `hx711_init`; and after any sequence of calls other than `hx711_init` and
`hx711_tare`, `hx711_get_tare_offset` still returns the stored value. -/
theorem hx711_frame (host : Host) (fuel : Nat) (st : Hx711) (h : List Op) :
    (∀ (r : Int) (s : Hx711) (g : List Op),
      hx711_read_raw host fuel st h = some (r, s, g) → s = st) ∧
    (∀ (offset m w : Int) (s : Hx711) (g : List Op),
      hx711_read_weight host fuel offset m st h = some (w, s, g) → s = st) ∧
    hx711_get_tare_offset st h = (st.s_tare_offset, st, h) ∧
    (∀ (r : Int) (s : Hx711) (g : List Op),
      hx711_get_raw_debug host fuel st h = some (r, s, g) → s = st) ∧
    hx711_is_initialized st h = (st.s_initialized, st, h) ∧
    Hx711.boot.s_tare_offset = 0 ∧
    (∀ (d k : Nat) (s : Hx711) (g : List Op),
      hx711_init host fuel d k st h = some (s, g) → s.s_tare_offset = 0) ∧
    (∀ (calls : List HxCall) (s : Hx711) (g : List Op),
      (∀ c, c ∈ calls → c.keepsTare = true) → hxRun host fuel calls st h = some (s, g) →
      s = st ∧ (hx711_get_tare_offset s g).1 = st.s_tare_offset) := by
  refine ⟨fun r s g hr => hx711_read_raw_state host fuel st h r s g hr,
    fun o m w s g hw => hx711_read_weight_state host fuel o m st h w s g hw,
    rfl, ?_, rfl, rfl, ?_, ?_⟩
  · intro r s g hr
    rw [hx711_get_raw_debug_eq] at hr
    exact hx711_read_raw_state host fuel st h r s g hr
  · intro d k s g hi
    rw [hx711_init_state host fuel d k st h s g hi]
  · intro calls s g hall hrun
    have := hxRun_keepsTare host fuel calls st h s g hall hrun
    subst this
    exact ⟨rfl, rfl⟩

theorem hx711_frame_witness :
    ({ readyHx with s_tare_offset := 1000 } : Hx711) = { readyHx with s_tare_offset := 1000 } ∧
    (hx711_get_tare_offset { readyHx with s_tare_offset := 1000 }
      (readEnd (adcHost 5 0) 1 readyHx 0)).1 = 1000 :=
  (hx711_frame (adcHost 5 0) 1 { readyHx with s_tare_offset := 1000 } []).2.2.2.2.2.2.2
    [HxCall.read_weight 3 0, HxCall.get_raw_debug, HxCall.is_initialized]
    { readyHx with s_tare_offset := 1000 } (readEnd (adcHost 5 0) 1 readyHx 0)
    (by decide) (by decide)

theorem lastWrite_append (pin : Nat) (h ops : List Op) :
    lastWrite pin (h ++ ops) = ops.foldl (lastWriteStep pin) (lastWrite pin h) := by
  unfold lastWrite
  rw [List.foldl_append]

theorem foldl_no_write (pin : Nat) :
    ∀ (ops : List Op) (acc : Option Level), (∀ op, op ∈ ops → isWrite op = false) →
      ops.foldl (lastWriteStep pin) acc = acc := by
  intro ops
  induction ops with
  | nil => intro acc _; rfl
  | cons op ops ih =>
    intro acc hall
    have hop := hall op (List.mem_cons_self op ops)
    rw [List.foldl_cons]
    cases op with
    | digitalWrite p l => simp [isWrite] at hop
    | _ => exact ih acc (fun o ho => hall o (List.mem_cons_of_mem _ ho))

theorem lastWrite_append_no_write (pin : Nat) (h ops : List Op)
    (hall : ∀ op, op ∈ ops → isWrite op = false) :
    lastWrite pin (h ++ ops) = lastWrite pin h := by
  rw [lastWrite_append, foldl_no_write pin ops _ hall]

theorem pollWhile_appends (host : Host) (clk : Clock) (pin : Nat) (lvl : Level)
    (timeout : Nat) :
    ∀ (fuel : Nat) (h g : List Op), pollWhile host clk pin lvl timeout [] fuel h = some g →
      ∃ ops, g = h ++ ops ∧ ∀ op, op ∈ ops → isWrite op = false := by
  intro fuel
  induction fuel with
  | zero => intro h g hp; simp [pollWhile] at hp
  | succ f ih =>
    intro h g hp
    simp only [pollWhile] at hp
    split at hp
    · split at hp
      · obtain ⟨ops, hg, hops⟩ := ih _ g hp
        refine ⟨[Op.digitalRead pin] ++ [clk.op] ++ ops, ?_, ?_⟩
        · rw [hg]; simp only [List.append_assoc, List.append_nil]
        · intro op hop
          simp only [List.mem_append, List.mem_singleton] at hop
          rcases hop with (rfl | rfl) | hop
          · rfl
          · cases clk <;> rfl
          · exact hops op hop
      · simp only [Option.some.injEq] at hp
        refine ⟨[Op.digitalRead pin] ++ [clk.op], ?_, ?_⟩
        · rw [← hp]; simp only [List.append_assoc]
        · intro op hop
          simp only [List.mem_append, List.mem_singleton] at hop
          rcases hop with rfl | rfl
          · rfl
          · cases clk <;> rfl
    · simp only [Option.some.injEq] at hp
      refine ⟨[Op.digitalRead pin], hp.symm, ?_⟩
      intro op hop
      simp only [List.mem_singleton] at hop
      rw [hop]; rfl

theorem hc_sr04_read_distance_trace (host : Host) (fuel : Nat) (st : HcSr04) (h : List Op)
    (r : Int) (s : HcSr04) (g : List Op) (hinit : st.s_initialized = true)
    (hread : hc_sr04_read_distance host fuel st h = some (r, s, g)) :
    ∃ rest, g = h ++ triggerPulse st ++ rest ∧ ∀ op, op ∈ rest → isWrite op = false := by
  unfold hc_sr04_read_distance at hread
  simp only [hinit, Bool.true_eq_false, if_false] at hread
  split at hread
  · simp at hread
  · rename_i h2 hp1
    obtain ⟨ops1, hg1, hops1⟩ := pollWhile_appends _ _ _ _ _ _ _ _ hp1
    split at hread
    · simp only [Option.some.injEq, Prod.mk.injEq] at hread
      refine ⟨[Op.micros] ++ ops1 ++ [Op.micros], ?_, ?_⟩
      · rw [← hread.2.2, hg1]; simp only [List.append_assoc]
      · intro op hop
        simp only [List.mem_append, List.mem_singleton] at hop
        rcases hop with (rfl | hop) | rfl
        · rfl
        · exact hops1 op hop
        · rfl
    · split at hread
      · simp at hread
      · rename_i h4 hp2
        obtain ⟨ops2, hg2, hops2⟩ := pollWhile_appends _ _ _ _ _ _ _ _ hp2
        simp only [Option.some.injEq, Prod.mk.injEq] at hread
        refine ⟨[Op.micros] ++ ops1 ++ [Op.micros] ++ [Op.micros] ++ ops2 ++ [Op.micros], ?_, ?_⟩
        · rw [← hread.2.2, hg2, hg1]; simp only [List.append_assoc]
        · intro op hop
          simp only [List.mem_append, List.mem_singleton] at hop
          rcases hop with ((((rfl | hop) | rfl) | rfl) | hop) | rfl
          · rfl
          · exact hops1 op hop
          · rfl
          · rfl
          · exact hops2 op hop
          · rfl

theorem hcStep_rest (host : Host) (fuel : Nat) (c : HcCall) (st : HcSr04) (h : List Op)
    (s : HcSr04) (g : List Op) (hinv : RestInvariant st h)
    (hstep : hcStep host fuel c st h = some (s, g)) : RestInvariant s g := by
  cases c with
  | init t e =>
    simp only [hcStep, hc_sr04_init, Option.some.injEq, Prod.mk.injEq] at hstep
    rw [← hstep.1, ← hstep.2]
    intro _
    refine ⟨by simp, by simp, ?_⟩
    rw [lastWrite_append]
    simp [lastWriteStep]
  | read_distance =>
    simp only [hcStep, Option.map_eq_some'] at hstep
    obtain ⟨⟨r, s1, g1⟩, hr, he⟩ := hstep
    simp only [Prod.mk.injEq] at he
    obtain ⟨hs, hg⟩ := he
    subst hs; subst hg
    have hp := hc_sr04_read_distance_pins host fuel st h r s1 g1 hr
    intro hi
    have hsti : st.s_initialized = true := by rw [← hp.2.2]; exact hi
    obtain ⟨i1, i2, i3⟩ := hinv hsti
    obtain ⟨rest, hg, hrest⟩ := hc_sr04_read_distance_trace host fuel st h r s1 g1 hsti hr
    rw [hp.1, hp.2.1, hg]
    refine ⟨?_, ?_, ?_⟩
    · simp only [List.mem_append]; exact Or.inl (Or.inl i1)
    · simp only [List.mem_append]; exact Or.inl (Or.inl i2)
    · rw [lastWrite_append_no_write _ _ _ hrest, lastWrite_append]
      simp [triggerPulse, lastWriteStep]
  | is_initialized =>
    simp only [hcStep, hc_sr04_is_initialized, Option.some.injEq, Prod.mk.injEq] at hstep
    rw [← hstep.1, ← hstep.2]
    exact hinv

theorem hcRun_rest (host : Host) (fuel : Nat) :
    ∀ (calls : List HcCall) (st : HcSr04) (h : List Op) (s : HcSr04) (g : List Op),
      RestInvariant st h → hcRun host fuel calls st h = some (s, g) → RestInvariant s g := by
  intro calls
  induction calls with
  | nil =>
    intro st h s g hinv hrun
    simp only [hcRun, Option.some.injEq, Prod.mk.injEq] at hrun
    rw [← hrun.1, ← hrun.2]
    exact hinv
  | cons c cs ih =>
    intro st h s g hinv hrun
    simp only [hcRun] at hrun
    split at hrun
    · simp at hrun
    · rename_i st1 h1 heq
      exact ih st1 h1 s g (hcStep_rest host fuel c st h st1 h1 hinv heq) hrun

/-- Claim C16: in every state reached from start-up by a sequence of calls of the
distance driver, if the driver is initialised then its trigger pin was
configured as output, its echo pin as input, and the most recent write to its
trigger pin is `LOW`; and a read on an initialised driver issues write `HIGH`,
`delayMicroseconds(10)`, write `LOW` on the trigger pin followed by calls none
of which is a write. -/
theorem hc_sr04_rest_invariant (host : Host) (fuel : Nat) (calls : List HcCall)
    (h0 : List Op) :
    (∀ (s : HcSr04) (g : List Op), hcRun host fuel calls HcSr04.boot h0 = some (s, g) →
      s.s_initialized = true →
        Op.pinMode s.s_trig_pin PinDir.OUTPUT ∈ g ∧
        Op.pinMode s.s_echo_pin PinDir.INPUT ∈ g ∧
        lastWrite s.s_trig_pin g = some Level.LOW) ∧
    (∀ (st s : HcSr04) (h g : List Op) (r : Int), st.s_initialized = true →
      hc_sr04_read_distance host fuel st h = some (r, s, g) →
      ∃ rest, g = h ++ [Op.digitalWrite st.s_trig_pin Level.HIGH, Op.delayMicroseconds 10,
          Op.digitalWrite st.s_trig_pin Level.LOW] ++ rest ∧
        ∀ op, op ∈ rest → isWrite op = false) := by
  refine ⟨?_, ?_⟩
  · intro s g hrun
    have hboot : RestInvariant HcSr04.boot h0 := by
      intro hi
      simp [HcSr04.boot] at hi
    exact hcRun_rest host fuel calls HcSr04.boot h0 s g hboot hrun
  · intro st s h g r hinit hread
    exact hc_sr04_read_distance_trace host fuel st h r s g hinit hread

theorem hc_sr04_rest_invariant_witness :
    Op.pinMode 12 PinDir.OUTPUT ∈
      ((hcRun (tickHost (echoLevel 1000 4000) 0 100) 20
        [HcCall.init 12 13, HcCall.read_distance] HcSr04.boot []).map Prod.snd).getD [] ∧
    Op.pinMode 13 PinDir.INPUT ∈
      ((hcRun (tickHost (echoLevel 1000 4000) 0 100) 20
        [HcCall.init 12 13, HcCall.read_distance] HcSr04.boot []).map Prod.snd).getD [] ∧
    lastWrite 12
      (((hcRun (tickHost (echoLevel 1000 4000) 0 100) 20
        [HcCall.init 12 13, HcCall.read_distance] HcSr04.boot []).map Prod.snd).getD [])
      = some Level.LOW :=
  (hc_sr04_rest_invariant (tickHost (echoLevel 1000 4000) 0 100) 20
    [HcCall.init 12 13, HcCall.read_distance] []).1
    { readyHc with s_last_distance := 514 }
    (((hcRun (tickHost (echoLevel 1000 4000) 0 100) 20
        [HcCall.init 12 13, HcCall.read_distance] HcSr04.boot []).map Prod.snd).getD [])
    (by decide) rfl

/-! ## Deadline checks at the clock wrap (claims C4, C7, C8) -/


theorem pollHist_length (clk : Clock) (pin : Nat) (body : List Op) :
    ∀ (k : Nat) (h : List Op),
      (pollHist clk pin body k h).length = h.length + k * (2 + body.length) := by
  intro k
  induction k with
  | zero => intro h; simp [pollHist]
  | succ k ih =>
    intro h
    simp only [pollHist, ih, List.length_append, List.length_singleton]
    ring

/-- The path of `hc_sr04_read_distance` on which the first loop leaves on the
deadline but the deadline check that follows reads a value below the deadline:
the call goes on to measure a pulse. -/
theorem hc_sr04_read_distance_check_passes (host : Host) (fuel : Nat) (st : HcSr04)
    (h : List Op) (k1 k2 : Nat) (hinit : st.s_initialized = true)
    (hwait : ClockExitAt host Clock.micros st.s_echo_pin Level.LOW (hcTimeout host st h) []
      (h ++ triggerPulse st ++ [Op.micros]) k1)
    (hchk : nowMicros host (hcWaitHist st h k1 ++ [Op.digitalRead st.s_echo_pin]
      ++ [Op.micros]) < hcTimeout host st h)
    (hfall : PinExitAt host Clock.micros st.s_echo_pin Level.HIGH
      ((nowMicros host (hcWaitHist st h k1 ++ [Op.digitalRead st.s_echo_pin]
        ++ [Op.micros] ++ [Op.micros]) + 10000) % 4294967296) []
      (hcWaitHist st h k1 ++ [Op.digitalRead st.s_echo_pin] ++ [Op.micros] ++ [Op.micros]
        ++ [Op.micros]) k2)
    (hk1 : k1 < fuel) (hk2 : k2 < fuel) :
    (hc_sr04_read_distance host fuel st h).map (fun x => (x.1, x.2.1.s_last_distance)) =
      some (u32ToI32 ((nowMicros host (pollHist Clock.micros st.s_echo_pin [] k2
            (hcWaitHist st h k1 ++ [Op.digitalRead st.s_echo_pin] ++ [Op.micros] ++ [Op.micros]
              ++ [Op.micros]) ++ [Op.digitalRead st.s_echo_pin]) + 4294967296
          - nowMicros host (hcWaitHist st h k1 ++ [Op.digitalRead st.s_echo_pin]
              ++ [Op.micros] ++ [Op.micros])) % 4294967296 * 343 % 4294967296 / 2000),
        u32ToI32 ((nowMicros host (pollHist Clock.micros st.s_echo_pin [] k2
            (hcWaitHist st h k1 ++ [Op.digitalRead st.s_echo_pin] ++ [Op.micros] ++ [Op.micros]
              ++ [Op.micros]) ++ [Op.digitalRead st.s_echo_pin]) + 4294967296
          - nowMicros host (hcWaitHist st h k1 ++ [Op.digitalRead st.s_echo_pin]
              ++ [Op.micros] ++ [Op.micros])) % 4294967296 * 343 % 4294967296 / 2000)) := by
  have hp1 := pollWhile_clock_exit host Clock.micros st.s_echo_pin Level.LOW
    (hcTimeout host st h) [] k1 fuel _ hwait hk1
  have hp2 := pollWhile_pin_exit host Clock.micros st.s_echo_pin Level.HIGH
    _ [] k2 fuel _ hfall hk2
  unfold hcWaitHist at *
  unfold hcTimeout at *
  unfold hc_sr04_read_distance
  simp only [Clock.op] at hp1
  simp only [hinit, Bool.true_eq_false, if_false, hp1, Nat.not_le.mpr hchk, hp2,
    Option.map_some']

theorem pollHist_zero (clk : Clock) (pin : Nat) (body h : List Op) :
    pollHist clk pin body 0 h = h := rfl

theorem tickHost_nowMicros (pin : Nat → Level) (t0 step : Nat) (h : List Op) :
    nowMicros (tickHost pin t0 step) h = (t0 + step * h.length) % 4294967296 := rfl

theorem tickHost_nowMillis (pin : Nat → Level) (t0 step : Nat) (h : List Op) :
    nowMillis (tickHost pin t0 step) h = (t0 + step * h.length) % 4294967296 := rfl

theorem hcWaitHist_length (i : Nat) : (hcWaitHist readyHc [] i).length = 4 + i * 2 := by
  unfold hcWaitHist
  rw [pollHist_length]
  rfl

theorem tickHost_low_clock_exit (t0 : Nat) (ht : t0 + 10003 < 4294967296) :
    ClockExitAt (tickHost (fun _ => Level.LOW) t0 1) Clock.micros readyHc.s_echo_pin Level.LOW
      (hcTimeout (tickHost (fun _ => Level.LOW) t0 1) readyHc []) []
      ([] ++ triggerPulse readyHc ++ [Op.micros]) 4999 := by
  have htime : hcTimeout (tickHost (fun _ => Level.LOW) t0 1) readyHc [] = t0 + 10003 := by
    unfold hcTimeout
    rw [tickHost_nowMicros]
    have : ([] ++ triggerPulse readyHc : List Op).length = 3 := rfl
    rw [this]
    omega
  have hlen : ∀ i, (pollHist Clock.micros readyHc.s_echo_pin [] i
      ([] ++ triggerPulse readyHc ++ [Op.micros]) ++ [Op.digitalRead readyHc.s_echo_pin]).length
      = 5 + i * 2 := by
    intro i
    have := hcWaitHist_length i
    unfold hcWaitHist at this
    rw [List.length_append, this]
    simp only [List.length_singleton]
    omega
  rw [htime]
  refine ⟨fun i hi => ⟨rfl, ?_⟩, rfl, ?_⟩
  · show nowMicros _ _ < _
    rw [tickHost_nowMicros, hlen]
    omega
  · show _ ≤ nowMicros _ _
    rw [tickHost_nowMicros, hlen]
    omega

theorem hcWaitHist_exit_length :
    (hcWaitHist readyHc [] 4999 ++ [Op.digitalRead readyHc.s_echo_pin]
      ++ [Op.micros]).length = 10004 := by
  rw [List.length_append, List.length_append, hcWaitHist_length]
  rfl

/-- Claim C4 fails at the clock wrap: with the echo line low for ever and 1 us
per host call, a call with the microsecond clock started at 0 returns and stores
1715; with the clock started 10004 us before the wrap the first loop leaves on
the deadline `2^32 - 1`, the deadline check reads the wrapped value 0 and does
not fire, and the call returns and stores 0. -/
theorem hc_sr04_read_distance_no_echo_wrap_race :
    (hc_sr04_read_distance (tickHost (fun _ => Level.LOW) 0 1) 5000 readyHc []).map
      (fun x => (x.1, x.2.1.s_last_distance)) = some (1715, 1715) ∧
    (hc_sr04_read_distance (tickHost (fun _ => Level.LOW) 4294957292 1) 5000 readyHc []).map
      (fun x => (x.1, x.2.1.s_last_distance)) = some (0, 0) := by
  constructor
  · have hx := tickHost_low_clock_exit 0 (by omega)
    have ht : hcTimeout (tickHost (fun _ => Level.LOW) 0 1) readyHc [] = 10003 := rfl
    rw [hc_sr04_read_distance_no_echo (tickHost (fun _ => Level.LOW) 0 1) 5000 readyHc []
      4999 rfl hx (by rw [ht, tickHost_nowMicros, hcWaitHist_exit_length]; omega) (by omega)]
    rfl
  · have hx := tickHost_low_clock_exit 4294957292 (by omega)
    have ht : hcTimeout (tickHost (fun _ => Level.LOW) 4294957292 1) readyHc []
        = 4294967295 := rfl
    have hl3 : (hcWaitHist readyHc [] 4999 ++ [Op.digitalRead readyHc.s_echo_pin]
        ++ [Op.micros] ++ [Op.micros]).length = 10005 := by
      rw [List.length_append, hcWaitHist_exit_length]
      rfl
    have hl5 : (pollHist Clock.micros readyHc.s_echo_pin [] 0
        (hcWaitHist readyHc [] 4999 ++ [Op.digitalRead readyHc.s_echo_pin] ++ [Op.micros]
          ++ [Op.micros] ++ [Op.micros]) ++ [Op.digitalRead readyHc.s_echo_pin]).length
        = 10007 := by
      rw [pollHist_zero, List.length_append, List.length_append, hl3]
      rfl
    rw [hc_sr04_read_distance_check_passes (tickHost (fun _ => Level.LOW) 4294957292 1) 5000
      readyHc [] 4999 0 rfl hx
      (by rw [ht, tickHost_nowMicros, hcWaitHist_exit_length]; omega)
      ⟨fun i hi => absurd hi (Nat.not_lt_zero i), fun hc => Level.noConfusion hc⟩
      (by omega) (by omega)]
    rw [tickHost_nowMicros, tickHost_nowMicros, hl3, hl5]
    rfl



theorem pollWhile_appends_body (host : Host) (clk : Clock) (pin : Nat) (lvl : Level)
    (timeout : Nat) (body : List Op) (hbody : ∀ op, op ∈ body → isWrite op = false) :
    ∀ (fuel : Nat) (h g : List Op), pollWhile host clk pin lvl timeout body fuel h = some g →
      ∃ ops, g = h ++ ops ∧ ∀ op, op ∈ ops → isWrite op = false := by
  intro fuel
  induction fuel with
  | zero => intro h g hp; simp [pollWhile] at hp
  | succ f ih =>
    intro h g hp
    simp only [pollWhile] at hp
    split at hp
    · split at hp
      · obtain ⟨ops, hg, hops⟩ := ih _ g hp
        refine ⟨[Op.digitalRead pin] ++ [clk.op] ++ body ++ ops, ?_, ?_⟩
        · rw [hg]; simp only [List.append_assoc]
        · intro op hop
          simp only [List.mem_append, List.mem_singleton] at hop
          rcases hop with ((rfl | rfl) | hop) | hop
          · rfl
          · cases clk <;> rfl
          · exact hbody op hop
          · exact hops op hop
      · simp only [Option.some.injEq] at hp
        refine ⟨[Op.digitalRead pin] ++ [clk.op], ?_, ?_⟩
        · rw [← hp]; simp only [List.append_assoc]
        · intro op hop
          simp only [List.mem_append, List.mem_singleton] at hop
          rcases hop with rfl | rfl
          · rfl
          · cases clk <;> rfl
    · simp only [Option.some.injEq] at hp
      refine ⟨[Op.digitalRead pin], hp.symm, ?_⟩
      intro op hop
      simp only [List.mem_singleton] at hop
      rw [hop]; rfl

theorem hxWaitEnd_appends (host : Host) (fuel : Nat) (st : Hx711) (h h1 : List Op)
    (hw : hxWaitEnd host fuel st h = some h1) :
    ∃ ops, h1 ++ [Op.millis] = h ++ ops ∧ ∀ op, op ∈ ops → isWrite op = false := by
  unfold hxWaitEnd at hw
  obtain ⟨ops, hg, hops⟩ := pollWhile_appends_body host Clock.millis st.s_dout_pin Level.HIGH
    (hxTimeout host h) [Op.delayMicroseconds 1]
    (by intro op hop; simp only [List.mem_singleton] at hop; rw [hop]; rfl) fuel _ h1 hw
  refine ⟨[Op.millis] ++ ops ++ [Op.millis], ?_, ?_⟩
  · rw [hg]; simp only [List.append_assoc]
  · intro op hop
    simp only [List.mem_append, List.mem_singleton] at hop
    rcases hop with (rfl | hop) | rfl
    · rfl
    · exact hops op hop
    · rfl

theorem count_write_of_no_write (ops : List Op) (hall : ∀ op, op ∈ ops → isWrite op = false)
    (p : Nat) (l : Level) : ops.count (Op.digitalWrite p l) = 0 := by
  apply List.count_eq_zero_of_not_mem
  intro hmem
  have := hall _ hmem
  simp [isWrite] at this

theorem hx711_read_raw_of_waitEnd (host : Host) (fuel : Nat) (st : Hx711) (h h1 : List Op)
    (hinit : st.s_initialized = true) (hw : hxWaitEnd host fuel st h = some h1) :
    hx711_read_raw host fuel st h =
      if hxTimeout host h ≤ nowMillis host h1 then some (0, st, h1 ++ [Op.millis])
      else some (signExtend24 (shiftIn host st 24 0 (h1 ++ [Op.millis])).1, st,
        h1 ++ [Op.millis] ++ (List.replicate 24 (dataPulse st)).flatten ++ selectPulse st) := by
  unfold hxWaitEnd hxTimeout at hw
  unfold hx711_read_raw hxTimeout
  simp only [hinit, Bool.true_eq_false, if_false, hw]
  split
  · rfl
  · have := shiftIn_spec host st 24 0 (h1 ++ [Op.millis])
    simp only [Nat.mul_zero] at this
    rw [this, shiftHist_eq_append]

theorem hxWaitEnd_of_ready (host : Host) (fuel : Nat) (st : Hx711) (h : List Op) (k : Nat)
    (hready : DataReadyAt host st h k) (hk : k < fuel) :
    hxWaitEnd host fuel st h = some (hxReadyHist st h k) := by
  unfold hxWaitEnd hxReadyHist
  exact pollWhile_pin_exit host Clock.millis st.s_dout_pin Level.HIGH
    (hxTimeout host h) [Op.delayMicroseconds 1] k fuel (h ++ [Op.millis]) hready.1 hk

/-- Claim C7, amended: a `hx711_read_raw` call on an uninitialised driver returns
0 and issues no host call; a call on an initialised driver whose wait loop ends
and whose deadline check then fires returns 0 and issues no write; a call on an
initialised driver whose wait loop ends and whose deadline check then passes
issues, after the calls of the wait (none of them a write), exactly 24 data
pulses (write `HIGH`, 1 us, one sample of the data pin, write `LOW`, 1 us)
followed by one pulse without a sample (write `HIGH`, 1 us, write `LOW`, 1 us),
so it writes `HIGH` to the clock pin exactly 25 times and `LOW` exactly 25 times
and its last write is `LOW`.  The last part shows that a data line that signals
ready at poll `k` makes the loop end and the call return, given more than `k`
fuel. -/
theorem hx711_read_raw_clock_pulses (host : Host) (fuel : Nat) (st : Hx711) (h : List Op) :
    (st.s_initialized = false → hx711_read_raw host fuel st h = some (0, st, h)) ∧
    (∀ h1 : List Op, st.s_initialized = true → hxWaitEnd host fuel st h = some h1 →
      hxTimeout host h ≤ nowMillis host h1 →
      ∃ wait : List Op, hx711_read_raw host fuel st h = some (0, st, h ++ wait) ∧
        (∀ op, op ∈ wait → isWrite op = false)) ∧
    (∀ h1 : List Op, st.s_initialized = true → hxWaitEnd host fuel st h = some h1 →
      nowMillis host h1 < hxTimeout host h →
      ∃ (r : Int) (wait : List Op),
        hx711_read_raw host fuel st h =
          some (r, st, h ++ wait ++ (List.replicate 24 (dataPulse st)).flatten
            ++ selectPulse st) ∧
        (∀ op, op ∈ wait → isWrite op = false) ∧
        (wait ++ (List.replicate 24 (dataPulse st)).flatten ++ selectPulse st).count
          (Op.digitalWrite st.s_sck_pin Level.HIGH) = 25 ∧
        (wait ++ (List.replicate 24 (dataPulse st)).flatten ++ selectPulse st).count
          (Op.digitalWrite st.s_sck_pin Level.LOW) = 25) ∧
    (∀ k : Nat, st.s_initialized = true → DataReadyAt host st h k → k < fuel →
      hxWaitEnd host fuel st h = some (hxReadyHist st h k) ∧
      nowMillis host (hxReadyHist st h k) < hxTimeout host h ∧
      ∃ r : Int, hx711_read_raw host fuel st h =
        some (r, st, h ++ hxWaitOps st k ++ (List.replicate 24 (dataPulse st)).flatten
          ++ selectPulse st)) := by
  refine ⟨?_, ?_, ?_, ?_⟩
  · intro hi
    simp [hx711_read_raw, hi]
  · intro h1 hinit hw hchk
    obtain ⟨ops, hg, hops⟩ := hxWaitEnd_appends host fuel st h h1 hw
    refine ⟨ops, ?_, hops⟩
    rw [hx711_read_raw_of_waitEnd host fuel st h h1 hinit hw, if_pos hchk, hg]
  · intro h1 hinit hw hchk
    obtain ⟨ops, hg, hops⟩ := hxWaitEnd_appends host fuel st h h1 hw
    refine ⟨signExtend24 (shiftIn host st 24 0 (h1 ++ [Op.millis])).1, ops, ?_, hops, ?_, ?_⟩
    · rw [hx711_read_raw_of_waitEnd host fuel st h h1 hinit hw, if_neg (Nat.not_le.mpr hchk),
        hg]
    · rw [List.count_append, List.count_append, count_write_of_no_write ops hops,
        replicate_dataPulse_count_high]
      simp [selectPulse]
    · rw [List.count_append, List.count_append, count_write_of_no_write ops hops,
        replicate_dataPulse_count_low]
      simp [selectPulse]
  · intro k hinit hready hk
    refine ⟨hxWaitEnd_of_ready host fuel st h k hready hk, hready.2,
      signExtend24 (shiftIn host st 24 0 (hxReadyHist st h k ++ [Op.millis])).1, ?_⟩
    rw [hx711_read_raw_ready host fuel st h k hinit hready hk, shiftHist_eq_append,
      hxReadyHist_eq]

/-- Instances of the amended C7: the start-up state, a data line that stays high
until the deadline, and an amplifier that is ready at the first poll. -/
theorem hx711_read_raw_clock_pulses_witness :
    hx711_read_raw (adcHost 5 0) 1 Hx711.boot [] = some (0, Hx711.boot, []) ∧
    (∃ wait : List Op,
      hx711_read_raw (tickHost (fun _ => Level.HIGH) 0 30) 2 readyHx [] =
        some (0, readyHx, [] ++ wait) ∧
      (∀ op, op ∈ wait → isWrite op = false)) ∧
    (∃ (r : Int) (wait : List Op),
      hx711_read_raw (adcHost 5 0) 1 readyHx [] =
        some (r, readyHx, [] ++ wait ++ (List.replicate 24 (dataPulse readyHx)).flatten
          ++ selectPulse readyHx) ∧
      (∀ op, op ∈ wait → isWrite op = false) ∧
      (wait ++ (List.replicate 24 (dataPulse readyHx)).flatten ++ selectPulse readyHx).count
        (Op.digitalWrite readyHx.s_sck_pin Level.HIGH) = 25 ∧
      (wait ++ (List.replicate 24 (dataPulse readyHx)).flatten ++ selectPulse readyHx).count
        (Op.digitalWrite readyHx.s_sck_pin Level.LOW) = 25) :=
  ⟨(hx711_read_raw_clock_pulses (adcHost 5 0) 1 Hx711.boot []).1 rfl,
   (hx711_read_raw_clock_pulses (tickHost (fun _ => Level.HIGH) 0 30) 2 readyHx []).2.1
     [Op.millis, Op.digitalRead 4, Op.millis, Op.delayMicroseconds 1, Op.digitalRead 4,
      Op.millis] rfl (by decide) (by decide),
   (hx711_read_raw_clock_pulses (adcHost 5 0) 1 readyHx []).2.2.1
     [Op.millis, Op.digitalRead 4] rfl (by decide) (by decide)⟩

/-- Claim C8 fails at the clock wrap: with the data line high for ever and 30 ms
per host call, a call with the millisecond clock started at 0 times out (returns
0, no write); with the clock started 160 ms before the wrap the loop leaves on
the deadline `2^32 - 60`, the deadline check reads the wrapped value 20 and does
not fire, and the call clocks 25 pulses and returns -1. -/
theorem hx711_read_raw_timeout_wrap_race :
    hx711_read_raw (tickHost (fun _ => Level.HIGH) 0 30) 2 readyHx [] =
      some (0, readyHx, [Op.millis, Op.digitalRead 4, Op.millis, Op.delayMicroseconds 1,
        Op.digitalRead 4, Op.millis, Op.millis]) ∧
    (hx711_read_raw (tickHost (fun _ => Level.HIGH) 4294967136 30) 2 readyHx []).map
      (fun x => (x.1, x.2.2.count (Op.digitalWrite 5 Level.HIGH))) = some (-1, 25) := by
  decide

end Sensors
